import Mathlib

/-!
Verification of the temporal-hierarchy / assignment-ledger core of the
`organigramma_ente` repository (`organigramma/models.py`), as a shallow
embedding in Lean.

Conventions of the embedding:
* A calendar date is its proleptic-Gregorian ordinal (an `Int`), exactly the
  value of Python `datetime.date.toordinal()`; `civ y m d` computes it.
  Python dates are bounded: `date.min.toordinal() = 1` and
  `date.max.toordinal() = 3652059` (9999-12-31).
* Database `NULL` on a nullable column is `Option.none`.  Columns declared
  without `null=True` (`data_inizio` on every model, every foreign key, every
  primary key) are embedded as plain values, since the stored value can never
  be `NULL`; primary keys generated by `AutoField` are `≥ 1`.
* Raising `ValidationError` is embedded as returning `some err`; partial
  database effects performed before the raise are kept, as in the source,
  where each `save()` commits independently.
-/

namespace Organigramma

/-- Calendar date as a Python `date.toordinal()` value. -/
abbrev Date := Int

/-- Ordinal of the civil date `y-m-d` (proleptic Gregorian); `civ 1 1 1 = 1`,
matching Python `date(y, m, d).toordinal()`. -/
def civ (y m d : Nat) : Date :=
  let y' := if m ≤ 2 then y - 1 else y
  let era := y' / 400
  let yoe := y' % 400
  let mp := if m > 2 then m - 3 else m + 9
  let doy := (153 * mp + 2) / 5 + (d - 1)
  let doe := yoe * 365 + yoe / 4 - yoe / 100 + doy
  (era * 146097 + doe : Int) - 305

/-- Smallest Python date, `date(1, 1, 1)`. -/
def pyMinDate : Date := civ 1 1 1

/-- Largest Python date, `date(9999, 12, 31)`; used by
`StrutturaResponsabile.clean` as the "infinito" sentinel for a null
`data_fine`. -/
def pyMaxDate : Date := civ 9999 12 31

/-- A stored date is one a Python `datetime.date` can hold. -/
def ValidDate (d : Date) : Prop := pyMinDate ≤ d ∧ d ≤ pyMaxDate

/-- `Responsabile` model: the fields the core logic reads.  `data_inizio`
is kept as an `Option` because `is_active` guards against `None`
explicitly in the source. -/
structure Responsabile where
  id : Nat
  data_inizio : Option Date
  data_fine : Option Date
deriving Repr, DecidableEq

/-- `Responsabile.is_active(d)`. -/
def Responsabile.is_active (p : Responsabile) (d : Date) : Bool :=
  (match p.data_inizio with
   | none => true
   | some s => decide (s ≤ d)) &&
  (match p.data_fine with
   | none => true
   | some e => decide (d ≤ e))

/-- `StrutturaResponsabile` model (one ledger row): `struttura` and
`responsabile` are non-null foreign keys, `data_inizio` is a non-null
`DateField`, `data_fine` is nullable. -/
structure StrutturaResponsabile where
  pk : Nat
  struttura : Nat
  responsabile : Nat
  data_inizio : Date
  data_fine : Option Date
deriving Repr, DecidableEq

/-- `StrutturaResponsabileQuerySet.active_on(on_date)` membership test for a
single row (the `isnull` branch of `data_inizio` is dropped: the column is
`NOT NULL`). -/
def StrutturaResponsabile.activeOn (r : StrutturaResponsabile) (d : Date) : Bool :=
  decide (r.data_inizio ≤ d) &&
  (match r.data_fine with
   | none => true
   | some e => decide (d ≤ e))

/-- `Struttura` model: the fields the core logic reads. -/
structure Struttura where
  pk : Nat
  struttura_padre : Option Nat
  codice : Option String
  responsabile : Option Nat
  data_inizio : Option Date
  data_fine : Option Date
deriving Repr, DecidableEq

/-- The rows of the ledger belonging to one unit
(`self.assegnazioni`, the reverse FK manager). -/
def assignmentsOf (ledger : List StrutturaResponsabile) (upk : Nat) :
    List StrutturaResponsabile :=
  ledger.filter (fun r => decide (r.struttura = upk))

/-- `order_by('-data_inizio').first()`: the row with the latest
`data_inizio` (the first listed one on ties). -/
def pickLatestStart (l : List StrutturaResponsabile) : Option StrutturaResponsabile :=
  l.foldl
    (fun acc r =>
      match acc with
      | none => some r
      | some b => if b.data_inizio < r.data_inizio then some r else some b)
    none

/-- `Struttura.current_assignment(d)` (also the query inside
`responsabile_on`): active rows of the unit at `d`, latest `data_inizio`
first. -/
def currentAssignment (ledger : List StrutturaResponsabile) (upk : Nat) (d : Date) :
    Option StrutturaResponsabile :=
  pickLatestStart ((assignmentsOf ledger upk).filter (fun r => r.activeOn d))

/-- The two `ValidationError`s the ledger boundary can raise. -/
inductive LedgerError where
  | invalidInterval
  | overlapping
deriving Repr, DecidableEq

/-- The date-coherence guard of `StrutturaResponsabile.clean`:
`data_fine < data_inizio` with both set (` data_inizio` is never null). -/
def dateIncoherentB (self : StrutturaResponsabile) : Bool :=
  match self.data_fine with
  | some e => decide (e < self.data_inizio)
  | none => false

/-- The overlap query of `StrutturaResponsabile.clean`: rows of the same
unit other than `self` whose `data_inizio` is at most the sentinel-completed
`data_fine` of `self` and whose `data_fine` is null or at least `self`'s
`data_inizio`. -/
def overlapCheckB (ledger : List StrutturaResponsabile)
    (self : StrutturaResponsabile) : Bool :=
  let a0 := self.data_inizio
  let a1 := self.data_fine.getD pyMaxDate
  (ledger.filter
    (fun o => decide (o.struttura = self.struttura) && !decide (o.pk = self.pk))).any
    (fun o =>
      decide (o.data_inizio ≤ a1) &&
      (match o.data_fine with
       | none => true
       | some e => decide (a0 ≤ e)))

/-- `StrutturaResponsabile.clean()` (run by `full_clean` inside `save`):
date coherence, then the per-unit overlap query with the
`date(9999,12,31)` sentinel for a null `data_fine`.  The early return when
`struttura_id` is falsy (Python truthiness: `0` or `None`) is kept; a real
`AutoField` pk is never `0`. -/
def srClean (ledger : List StrutturaResponsabile) (self : StrutturaResponsabile) :
    Option LedgerError :=
  if dateIncoherentB self then some .invalidInterval
  else if self.struttura = 0 then none
  else if overlapCheckB ledger self then some .overlapping
  else none

/-- Persisting an `UPDATE` of an existing row (matched by pk). -/
def updateRec (ledger : List StrutturaResponsabile) (r : StrutturaResponsabile) :
    List StrutturaResponsabile :=
  ledger.map (fun o => if o.pk = r.pk then r else o)

/-- The pk the database hands a freshly inserted row. -/
def freshPk (ledger : List StrutturaResponsabile) : Nat :=
  (ledger.foldl (fun m o => max m o.pk) 0) + 1

/-- The end date step 3 writes: `effective_date - 1 day`, clamped to the
current row's `data_inizio` ("evita fine < inizio"). -/
def closeDate (c : StrutturaResponsabile) (d : Date) : Date :=
  if d - 1 < c.data_inizio then c.data_inizio else d - 1

/-- Step 3 of `sync_assignment_from_fk`: close the current assignment at
`closeDate`; persist only when the value changes, running `full_clean`
first.  On a `ValidationError` the ledger is left untouched (the exception
propagates before the `save`). -/
def syncCloseCurrent (ledger : List StrutturaResponsabile)
    (c : StrutturaResponsabile) (d : Date) :
    List StrutturaResponsabile × Option LedgerError :=
  let e := closeDate c d
  if c.data_fine = some e then
    (ledger, none)
  else
    let c' := { c with data_fine := some e }
    match srClean ledger c' with
    | some err => (ledger, some err)
    | none => (updateRec ledger c', none)

/-- The open-ended row step 4 inserts:
`data_inizio = max(d, self.data_inizio or d)`. -/
def openRow (u : Struttura) (ledger : List StrutturaResponsabile)
    (m : Nat) (d : Date) : StrutturaResponsabile :=
  ⟨freshPk ledger, u.pk, m, max d (u.data_inizio.getD d), none⟩

/-- Step 4 of `sync_assignment_from_fk`:
`StrutturaResponsabile.objects.create(...)`, whose `save` runs
`full_clean`; on a `ValidationError` nothing is inserted. -/
def syncOpenNew (u : Struttura) (ledger : List StrutturaResponsabile)
    (m : Nat) (d : Date) :
    List StrutturaResponsabile × Option LedgerError :=
  let r := openRow u ledger m d
  match srClean ledger r with
  | some err => (ledger, some err)
  | none => (ledger ++ [r], none)

/-- `Struttura.sync_assignment_from_fk(effective_date)`: reconcile the
ledger with the unit's `responsabile` FK.  Returns the resulting ledger
and the `ValidationError`, if one was raised; effects performed before
the raise are kept. -/
def sync_assignment_from_fk (u : Struttura) (ledger : List StrutturaResponsabile)
    (d : Date) : List StrutturaResponsabile × Option LedgerError :=
  let new_resp := u.responsabile
  let cur := currentAssignment ledger u.pk d
  if (match cur, new_resp with
      | some c, some m => decide (c.responsabile = m)
      | _, _ => false) then
    (ledger, none)
  else
    let step3 :=
      match cur with
      | none => (ledger, none)
      | some c => syncCloseCurrent ledger c d
    match step3 with
    | (l1, some err) => (l1, some err)
    | (l1, none) =>
      match new_resp with
      | none => (l1, none)
      | some m => syncOpenNew u l1 m d

/-- Person lookup by pk (a non-null FK resolved against the people table). -/
def findPerson (people : List Responsabile) (i : Nat) : Option Responsabile :=
  people.find? (fun p => decide (p.id = i))

/-- The FK fallback at the end of `responsabile_on`. -/
def fkFallback (people : List Responsabile) (u : Struttura) (d : Date) :
    Option Responsabile :=
  match u.responsabile with
  | none => none
  | some i =>
    match findPerson people i with
    | none => none
    | some r => if r.is_active d then some r else none

/-- `Struttura.responsabile_on(on_date)`: the ledger's active row first, its
person only if independently active, otherwise the `responsabile` FK if
active, otherwise vacant. -/
def responsabile_on (people : List Responsabile) (u : Struttura)
    (ledger : List StrutturaResponsabile) (d : Date) : Option Responsabile :=
  match currentAssignment ledger u.pk d with
  | some a =>
    (match findPerson people a.responsabile with
     | some r => if r.is_active d then some r else fkFallback people u d
     | none => fkFallback people u d)
  | none => fkFallback people u d

/-! ### Code generation (`_generate_code_for_parent`, `_generate_code_for_root`) -/

/-- Python `"s".split('.')` on the character list. -/
def splitDotsAux : List Char → List Char → List String
  | [], acc => [String.mk acc.reverse]
  | c :: rest, acc =>
    if c = '.' then String.mk acc.reverse :: splitDotsAux rest []
    else splitDotsAux rest (c :: acc)

/-- Python `code.split('.')`; `"".split('.') = [""]`. -/
def splitDots (s : String) : List String :=
  splitDotsAux s.data []

/-- Python `int(s)` restricted to the non-negative digit strings of codes
(`none` models the raised `ValueError`, caught by the source's
`except`). -/
def parseIntPy (s : String) : Option Nat :=
  if s.data ≠ [] ∧ s.data.all (fun c => decide ('0' ≤ c) && decide (c ≤ '9')) then
    some (s.data.foldl (fun a c => a * 10 + (c.toNat - 48)) 0)
  else
    none

/-- Python `str(n)` for a natural number (the f-string rendering of
`new_suffix`).  The fuel argument makes the digit recursion structural;
`n + 1` digits always suffice. -/
def natDigits : Nat → Nat → List Char
  | 0, _ => []
  | _ + 1, 0 => []
  | f + 1, n => natDigits f (n / 10) ++ [Char.ofNat (48 + n % 10)]

/-- Python `str(n)`. -/
def natToStr (n : Nat) : String :=
  if n = 0 then "0" else String.mk (natDigits (n + 1) n)

/-- Database string ordering (binary collation: byte-wise comparison, which
on these ASCII codes is code-point lexicographic order). -/
def strLtB : List Char → List Char → Bool
  | [], [] => false
  | [], _ :: _ => true
  | _ :: _, [] => false
  | a :: as, b :: bs =>
    if a.toNat < b.toNat then true
    else if a.toNat = b.toNat then strLtB as bs
    else false

/-- `order_by('codice').last()`: the maximum code in database string order. -/
def maxCode (codes : List String) : Option String :=
  codes.foldl
    (fun acc c =>
      match acc with
      | none => some c
      | some m => if strLtB m.data c.data then some c else some m)
    none

/-- `Struttura._generate_code_for_parent`: take the string-largest sibling
code, parse its last dotted segment as an integer and add one; on a parse
failure the suffix restarts at 1. -/
def generateCodeForParent (parentCode : String) (siblingCodes : List String) :
    String :=
  match maxCode siblingCodes with
  | none => parentCode ++ ".1"
  | some lastC =>
    let lastSeg := (splitDots lastC).getLastD ""
    let newSuffix :=
      match parseIntPy lastSeg with
      | some k => k + 1
      | none => 1
    parentCode ++ "." ++ natToStr newSuffix

/-- `Struttura._generate_code_for_root`: parse the string-largest root code
as an integer and add one; on failure return `"1"`. -/
def generateCodeForRoot (rootCodes : List String) : String :=
  match maxCode rootCodes with
  | none => "1"
  | some lastC =>
    match parseIntPy lastC with
    | some k => natToStr (k + 1)
    | none => "1"

/-- Creating `n` units one at a time under the same parent: each creation
reads the codes of the already-present siblings and stores the generated
code (per-parent serialized, as the claim assumes). -/
def createSiblings (parentCode : String) : Nat → List String
  | 0 => []
  | n + 1 =>
    let prev := createSiblings parentCode n
    prev ++ [generateCodeForParent parentCode prev]

/-! ### Hierarchy validation (`Struttura.clean`, step "no self-parent / no cicli") -/

/-- The stored forest the validator walks: the unit pks and the
`struttura_padre` foreign key. -/
structure HEnv where
  units : List Nat
  parent : Nat → Option Nat

/-- `n`-fold parent-chain step from an optional starting unit. -/
def iterPar (env : HEnv) : Nat → Option Nat → Option Nat
  | 0, s => s
  | n + 1, s => iterPar env n (s.bind env.parent)

/-- Outcome of the validator's ancestor loop.  `outOfFuel` reports that the
source's unbounded `while` has not terminated within the given number of
iterations. -/
inductive WalkResult where
  | ok
  | cycleDetected
  | outOfFuel
deriving Repr, DecidableEq

/-- The `while ancestor is not None` loop of `Struttura.clean`: at each
iteration, raise `CycleDetected` when the ancestor is the unit itself,
otherwise follow `struttura_padre`.  The source loop has no step bound;
`fuel` only truncates the embedding. -/
def ancestorWalk (env : HEnv) (selfPk : Nat) : Option Nat → Nat → WalkResult
  | _, 0 => .outOfFuel
  | none, _ + 1 => .ok
  | some a, n + 1 =>
    if a = selfPk then .cycleDetected else ancestorWalk env selfPk (env.parent a) n

/-- The cycle portion of `Struttura.clean` for a persisted unit (`self.pk`
set): the explicit self-parent check, then the ancestor loop. -/
def hierClean (env : HEnv) (selfPk : Nat) (proposed : Option Nat) (fuel : Nat) :
    WalkResult :=
  if proposed = some selfPk then .cycleDetected
  else ancestorWalk env selfPk proposed fuel

/-- Foreign-key integrity of the stored forest: a parent pointer only
connects stored units (and a non-stored id has no parent pointer). -/
def HWF (env : HEnv) : Prop :=
  ∀ i j, env.parent i = some j → i ∈ env.units ∧ j ∈ env.units

/-- Acyclicity of the stored forest, phrased as every stored unit's ancestor
chain reaching a root. -/
def Acyclic (env : HEnv) : Prop :=
  ∀ i ∈ env.units, ∃ n, iterPar env n (some i) = none

/-- No unit's ancestor chain contains the unit itself. -/
def NoSelfAncestor (env : HEnv) : Prop :=
  ∀ i k, 0 < k → iterPar env k (some i) ≠ some i

/-- A reparenting request: unit to move, proposed new parent. -/
abbrev ReparentOp := Nat × Option Nat

/-- Persisting a reparenting (what `update_struttura_padre` + `save` store). -/
def applyReparent (env : HEnv) (op : ReparentOp) : HEnv :=
  ⟨env.units, fun i => if i = op.1 then op.2 else env.parent i⟩

/-- All reparentings of a sequence, applied in order. -/
def applySeq (env : HEnv) (ops : List ReparentOp) : HEnv :=
  ops.foldl applyReparent env

/-- A sequence of reparenting operations each of which referenced stored
units and passed the validator (the source loop terminated without raising,
i.e. `hierClean` returns `ok` for some fuel). -/
inductive ValidatedSeq : HEnv → List ReparentOp → Prop
  | nil (env : HEnv) : ValidatedSeq env []
  | cons (env : HEnv) (op : ReparentOp) (ops : List ReparentOp)
      (hmem : op.1 ∈ env.units)
      (hp : ∀ q ∈ op.2, q ∈ env.units)
      (hok : ∃ f, hierClean env op.1 op.2 f = .ok)
      (hrest : ValidatedSeq (applyReparent env op) ops) :
      ValidatedSeq env (op :: ops)

/-! ### C1: manager-change reconciliation scenario -/

/-- C1: a unit whose ledger holds a single open-ended assignment of manager
A (person 1) from 2021-01-01, reconciled on 2022-03-10 towards manager B
(person 2), an employment-active pair, with the unit's `data_inizio` not
after 2022-03-10: the reconciliation raises nothing, closes A's row at
2022-03-09, opens B's open-ended row at 2022-03-10, and afterwards
`responsabile_on` resolves A on 2022-03-09 and B on 2022-03-10. -/
theorem c1_manager_change_sync
    (s0 : Date) (da fa db fb : Option Date)
    (hs0 : s0 ≤ civ 2022 3 10)
    (hA : Responsabile.is_active ⟨1, da, fa⟩ (civ 2022 3 9) = true)
    (hB : Responsabile.is_active ⟨2, db, fb⟩ (civ 2022 3 10) = true) :
    let u : Struttura := ⟨7, none, some "1", some 2, some s0, none⟩
    let people : List Responsabile := [⟨1, da, fa⟩, ⟨2, db, fb⟩]
    let res := sync_assignment_from_fk u [⟨1, 7, 1, civ 2021 1 1, none⟩] (civ 2022 3 10)
    res.2 = none ∧
    res.1 = [⟨1, 7, 1, civ 2021 1 1, some (civ 2022 3 9)⟩,
             ⟨2, 7, 2, civ 2022 3 10, none⟩] ∧
    responsabile_on people u res.1 (civ 2022 3 9) = some ⟨1, da, fa⟩ ∧
    responsabile_on people u res.1 (civ 2022 3 10) = some ⟨2, db, fb⟩ := by
  intro u people res
  have hmax : max (civ 2022 3 10) s0 = civ 2022 3 10 := max_eq_left hs0
  have hres : res = ([⟨1, 7, 1, civ 2021 1 1, some (civ 2022 3 9)⟩,
      ⟨2, 7, 2, civ 2022 3 10, none⟩], none) := by
    show sync_assignment_from_fk u [⟨1, 7, 1, civ 2021 1 1, none⟩] (civ 2022 3 10) = _
    simp only [sync_assignment_from_fk, currentAssignment, assignmentsOf, pickLatestStart,
      StrutturaResponsabile.activeOn, List.filter, List.foldl, syncCloseCurrent, closeDate,
      srClean, updateRec, List.map, syncOpenNew, openRow, freshPk, Option.getD_some, hmax,
      List.any]
    norm_num
    decide
  rw [hres]
  refine ⟨rfl, rfl, ?_, ?_⟩ <;>
    simp only [responsabile_on, currentAssignment, assignmentsOf, pickLatestStart,
      StrutturaResponsabile.activeOn, List.filter, List.foldl, findPerson, List.find?,
      hA, hB] <;> simp [hA, hB]

/-- Witness for C1 at concrete employment intervals and unit start. -/
theorem c1_manager_change_sync_witness :
    (((civ 2021 1 1 : Date)) ≤ civ 2022 3 10) ∧
    (Responsabile.is_active ⟨1, some (civ 2019 1 1), none⟩ (civ 2022 3 9) = true) ∧
    (Responsabile.is_active ⟨2, some (civ 2019 1 1), none⟩ (civ 2022 3 10) = true) ∧
    (let u : Struttura := ⟨7, none, some "1", some 2, some (civ 2021 1 1), none⟩
     let people : List Responsabile :=
       [⟨1, some (civ 2019 1 1), none⟩, ⟨2, some (civ 2019 1 1), none⟩]
     let res := sync_assignment_from_fk u [⟨1, 7, 1, civ 2021 1 1, none⟩] (civ 2022 3 10)
     res.2 = none ∧
     res.1 = [⟨1, 7, 1, civ 2021 1 1, some (civ 2022 3 9)⟩,
              ⟨2, 7, 2, civ 2022 3 10, none⟩] ∧
     responsabile_on people u res.1 (civ 2022 3 9) = some ⟨1, some (civ 2019 1 1), none⟩ ∧
     responsabile_on people u res.1 (civ 2022 3 10) = some ⟨2, some (civ 2019 1 1), none⟩) :=
  ⟨by decide, by decide, by decide,
   c1_manager_change_sync (civ 2021 1 1) (some (civ 2019 1 1)) none
     (some (civ 2019 1 1)) none (by decide) (by decide) (by decide)⟩

/-! ### C3: the defensive overlap re-validation is reachable -/

set_option maxRecDepth 8000 in
/-- C3 counterexample: starting from the empty ledger, one reconcile call
installs manager 1 open-ended from 2022-03-10; reconciling towards manager
2 with the effective date equal to that `data_inizio` clamps the closure to
a one-day interval and the step-4 insert raises `OverlappingAssignment` —
the error branch the claim calls unreachable. -/
theorem c3_defensive_check_counterexample :
    let d := civ 2022 3 10
    let uA : Struttura := ⟨7, none, some "1", some 1, some (civ 2021 1 1), none⟩
    let uB : Struttura := ⟨7, none, some "1", some 2, some (civ 2021 1 1), none⟩
    let r1 := sync_assignment_from_fk uA [] d
    r1.2 = none ∧
    r1.1 = [⟨1, 7, 1, civ 2022 3 10, none⟩] ∧
    (sync_assignment_from_fk uB r1.1 d).2 = some .overlapping := by decide

/-! ### C4: reconciliation idempotence -/

set_option maxRecDepth 8000 in
/-- C4 counterexample: for a unit whose `data_inizio` (2022-05-01) is after
the effective date (2022-03-10), the first reconcile inserts the assignment
starting at the unit's `data_inizio`; the repeated identical call is not a
step-2 no-op — it raises `OverlappingAssignment` (the ledger stays
unchanged only because the insert is rejected). -/
theorem c4_idempotence_counterexample :
    let d := civ 2022 3 10
    let u : Struttura := ⟨7, none, some "1", some 1, some (civ 2022 5 1), none⟩
    let r1 := sync_assignment_from_fk u [] d
    r1.2 = none ∧
    r1.1 = [⟨1, 7, 1, civ 2022 5 1, none⟩] ∧
    (sync_assignment_from_fk u r1.1 d).2 = some .overlapping := by decide

/-! ### C10: reconciliation is not atomic -/

set_option maxRecDepth 8000 in
/-- C10 counterexample: a back-dated reconcile over the ledger
`[person 1: 2021-01-01..2022-03-09, person 2: 2022-03-10..open]` towards
person 3 on 2021-06-01 closes the first row at 2021-05-31 and then the
insert raises — yet the final ledger still contains an open-ended
assignment (person 2's), contradicting the claim's "no open assignment"
description of every failing execution. -/
theorem c10_nonatomic_counterexample :
    let s : List StrutturaResponsabile :=
      [⟨1, 7, 1, civ 2021 1 1, some (civ 2022 3 9)⟩, ⟨2, 7, 2, civ 2022 3 10, none⟩]
    let u : Struttura := ⟨7, none, some "1", some 3, some (civ 2021 1 1), none⟩
    let res := sync_assignment_from_fk u s (civ 2021 6 1)
    res.2 = some .overlapping ∧
    res.1 = [⟨1, 7, 1, civ 2021 1 1, some (civ 2021 5 31)⟩, ⟨2, 7, 2, civ 2022 3 10, none⟩] ∧
    res.1.any (fun r => r.data_fine.isNone) = true ∧
    res.1 ≠ s := by decide

/-! ### C2: the non-overlap invariant at the write boundary -/

/-- Genuine interval overlap of two ledger rows, a null `data_fine` read as
unbounded future: `[s1, e1∞] ∩ [s2, e2∞] ≠ ∅`. -/
def overlapB (r1 r2 : StrutturaResponsabile) : Bool :=
  (match r2.data_fine with
   | none => true
   | some e2 => decide (r1.data_inizio ≤ e2)) &&
  (match r1.data_fine with
   | none => true
   | some e1 => decide (r2.data_inizio ≤ e1))

/-- No two distinct stored rows of the same unit overlap. -/
def LedgerNoOverlap (s : List StrutturaResponsabile) : Prop :=
  ∀ r1 ∈ s, ∀ r2 ∈ s, r1.pk ≠ r2.pk → r1.struttura = r2.struttura →
    overlapB r1 r2 = false

/-- Stored-value validity of one row: its dates fit in a Python
`datetime.date` and its unit FK is a real `AutoField` pk (`≥ 1`). -/
def validRowB (r : StrutturaResponsabile) : Bool :=
  decide (pyMinDate ≤ r.data_inizio) && decide (r.data_inizio ≤ pyMaxDate) &&
  (match r.data_fine with
   | none => true
   | some e => decide (pyMinDate ≤ e) && decide (e ≤ pyMaxDate)) &&
  decide (0 < r.struttura)

/-- The Ledger's write boundary: every insert or update of an Assignment row
goes through `StrutturaResponsabile.save`, i.e. `full_clean` must pass
(`srClean = none`); inserted values are Python dates and real FKs. -/
inductive LedgerStep : List StrutturaResponsabile → List StrutturaResponsabile → Prop
  | insert (s : List StrutturaResponsabile) (r : StrutturaResponsabile)
      (hv : validRowB r = true) (hpk : r.pk ∉ s.map (·.pk))
      (hclean : srClean s r = none) : LedgerStep s (s ++ [r])
  | update (s : List StrutturaResponsabile) (r : StrutturaResponsabile)
      (hv : validRowB r = true) (hpk : r.pk ∈ s.map (·.pk))
      (hclean : srClean s r = none) : LedgerStep s (updateRec s r)

/-- Ledger states reachable from the empty ledger through the write
boundary. -/
inductive LedgerReachable : List StrutturaResponsabile → Prop
  | nil : LedgerReachable []
  | step (s s' : List StrutturaResponsabile) (h : LedgerReachable s)
      (hs : LedgerStep s s') : LedgerReachable s'

/-- The inductive invariant carried through the write boundary. -/
def LedgerInv (s : List StrutturaResponsabile) : Prop :=
  (s.map (·.pk)).Nodup ∧
  (∀ r ∈ s, validRowB r = true ∧ dateIncoherentB r = false) ∧
  LedgerNoOverlap s

lemma srClean_none_iff (s : List StrutturaResponsabile) (r : StrutturaResponsabile) :
    srClean s r = none ↔
      dateIncoherentB r = false ∧ (r.struttura = 0 ∨ overlapCheckB s r = false) := by
  unfold srClean
  by_cases h1 : dateIncoherentB r <;> by_cases h2 : r.struttura = 0 <;>
    by_cases h3 : overlapCheckB s r <;> simp [h1, h2, h3]

lemma overlapCheckB_false_at (s : List StrutturaResponsabile)
    (r o : StrutturaResponsabile) (h : overlapCheckB s r = false)
    (ho : o ∈ s) (hu : o.struttura = r.struttura) (hpk : o.pk ≠ r.pk) :
    (decide (o.data_inizio ≤ r.data_fine.getD pyMaxDate) &&
     (match o.data_fine with
      | none => true
      | some e => decide (r.data_inizio ≤ e))) = false := by
  unfold overlapCheckB at h
  rw [List.any_eq_false] at h
  have hmem : o ∈ s.filter
      (fun o => decide (o.struttura = r.struttura) && !decide (o.pk = r.pk)) := by
    rw [List.mem_filter]
    exact ⟨ho, by simp [hu, hpk]⟩
  have := h o hmem
  simpa using this

lemma no_overlap_of_clean (s : List StrutturaResponsabile)
    (r o : StrutturaResponsabile) (hclean : srClean s r = none)
    (hs : 0 < r.struttura) (ho : o ∈ s) (hpk : o.pk ≠ r.pk)
    (hu : o.struttura = r.struttura) (hos : o.data_inizio ≤ pyMaxDate) :
    overlapB o r = false ∧ overlapB r o = false := by
  rcases (srClean_none_iff s r).1 hclean with ⟨-, h0 | hchk⟩
  · omega
  · have hcond := overlapCheckB_false_at s r o hchk ho hu hpk
    unfold overlapB
    cases hrf : r.data_fine with
    | none =>
      simp only [hrf, Option.getD] at hcond
      cases hof : o.data_fine with
      | none => simp [hof, hos] at hcond
      | some e =>
        simp only [hof, Bool.and_eq_false_iff, decide_eq_false_iff_not] at hcond
        rcases hcond with hcond | hcond
        · exact absurd hos hcond
        · simp [hof, hrf, hcond]
    | some e2 =>
      simp only [hrf, Option.getD] at hcond
      rw [Bool.and_eq_false_iff] at hcond
      rcases hcond with hcond | hcond
      · rw [decide_eq_false_iff_not] at hcond
        simp [hrf, hcond]
      · cases hof : o.data_fine with
        | none => rw [hof] at hcond; exact absurd hcond (by simp)
        | some e =>
          rw [hof] at hcond
          rw [decide_eq_false_iff_not] at hcond
          simp [hrf, hof, hcond]

lemma updateRec_map_pk (s : List StrutturaResponsabile) (r : StrutturaResponsabile) :
    (updateRec s r).map (·.pk) = s.map (·.pk) := by
  unfold updateRec
  rw [List.map_map]
  apply List.map_congr_left
  intro o _
  by_cases h : o.pk = r.pk <;> simp [h]

lemma validRowB_start_le (r : StrutturaResponsabile)
    (h : validRowB r = true) : r.data_inizio ≤ pyMaxDate := by
  unfold validRowB at h
  simp only [Bool.and_eq_true, decide_eq_true_eq] at h
  exact h.1.1.2

lemma validRowB_strut_pos (r : StrutturaResponsabile)
    (h : validRowB r = true) : 0 < r.struttura := by
  unfold validRowB at h
  simp only [Bool.and_eq_true, decide_eq_true_eq] at h
  exact h.2

lemma ledgerInv_step (s s' : List StrutturaResponsabile)
    (hinv : LedgerInv s) (hstep : LedgerStep s s') : LedgerInv s' := by
  obtain ⟨hnd, hval, hnov⟩ := hinv
  cases hstep
  case insert r hv hpk hclean =>
    have hcoh : dateIncoherentB r = false := ((srClean_none_iff s r).1 hclean).1
    have hrstrut : 0 < r.struttura := validRowB_strut_pos r hv
    refine ⟨?_, ?_, ?_⟩
    · simp only [List.map_append, List.map_cons, List.map_nil]
      rw [List.nodup_append]
      exact ⟨hnd, List.nodup_singleton _, by simpa using hpk⟩
    · intro x hx
      rcases List.mem_append.1 hx with hx | hx
      · exact hval x hx
      · rw [List.mem_singleton.1 hx]
        exact ⟨hv, hcoh⟩
    · intro x1 hx1 x2 hx2 hne hu
      rcases List.mem_append.1 hx1 with hx1a | hx1b
      · rcases List.mem_append.1 hx2 with hx2a | hx2b
        · exact hnov x1 hx1a x2 hx2a hne hu
        · have hx2r : x2 = r := List.mem_singleton.1 hx2b
          rw [hx2r] at hne hu ⊢
          exact (no_overlap_of_clean s r x1 hclean hrstrut hx1a hne hu
            (validRowB_start_le x1 (hval x1 hx1a).1)).1
      · have hx1r : x1 = r := List.mem_singleton.1 hx1b
        rcases List.mem_append.1 hx2 with hx2a | hx2b
        · rw [hx1r] at hne hu ⊢
          exact (no_overlap_of_clean s r x2 hclean hrstrut hx2a (Ne.symm hne) hu.symm
            (validRowB_start_le x2 (hval x2 hx2a).1)).2
        · have hx2r : x2 = r := List.mem_singleton.1 hx2b
          rw [hx1r, hx2r] at hne
          exact absurd rfl hne
  case update r hv hpk hclean =>
    have hcoh : dateIncoherentB r = false := ((srClean_none_iff s r).1 hclean).1
    have hrstrut : 0 < r.struttura := validRowB_strut_pos r hv
    have hmem : ∀ x ∈ updateRec s r,
        ∃ o ∈ s, x = (if o.pk = r.pk then r else o) := by
      intro x hx
      unfold updateRec at hx
      rcases List.mem_map.1 hx with ⟨o, ho, rfl⟩
      exact ⟨o, ho, rfl⟩
    refine ⟨?_, ?_, ?_⟩
    · rw [updateRec_map_pk]; exact hnd
    · intro x hx
      rcases hmem x hx with ⟨o, ho, hxo⟩
      by_cases h : o.pk = r.pk
      · rw [hxo, if_pos h]
        exact ⟨hv, hcoh⟩
      · rw [hxo, if_neg h]
        exact hval o ho
    · intro x1 hx1 x2 hx2 hne hu
      rcases hmem x1 hx1 with ⟨o1, ho1, hx1o⟩
      rcases hmem x2 hx2 with ⟨o2, ho2, hx2o⟩
      by_cases h1 : o1.pk = r.pk <;> by_cases h2 : o2.pk = r.pk
      · rw [hx1o, hx2o, if_pos h1, if_pos h2] at hne
        exact absurd rfl hne
      · rw [hx1o, if_pos h1] at hne hu ⊢
        rw [hx2o, if_neg h2] at hne hu ⊢
        exact (no_overlap_of_clean s r o2 hclean hrstrut ho2 (Ne.symm hne) hu.symm
          (validRowB_start_le o2 (hval o2 ho2).1)).2
      · rw [hx1o, if_neg h1] at hne hu ⊢
        rw [hx2o, if_pos h2] at hne hu ⊢
        exact (no_overlap_of_clean s r o1 hclean hrstrut ho1 hne hu
          (validRowB_start_le o1 (hval o1 ho1).1)).1
      · rw [hx1o, if_neg h1] at hne hu ⊢
        rw [hx2o, if_neg h2] at hne hu ⊢
        exact hnov o1 ho1 o2 ho2 hne hu

lemma ledgerInv_of_reachable (s : List StrutturaResponsabile)
    (h : LedgerReachable s) : LedgerInv s := by
  induction h with
  | nil =>
    refine ⟨List.nodup_nil, ?_, ?_⟩
    · intro r hr; cases hr
    · intro r1 hr1; cases hr1
  | step s s' _ hs ih => exact ledgerInv_step s s' ih hs

/-- C2: every ledger state reachable from the empty ledger through the
write boundary (`save`, which runs the overlap validation) satisfies the
per-unit non-overlap invariant — no two distinct stored rows of the same
unit have intersecting `[assignFrom, assignTo-or-infinity]` intervals. -/
theorem c2_no_overlap_invariant (s : List StrutturaResponsabile)
    (h : LedgerReachable s) : LedgerNoOverlap s :=
  (ledgerInv_of_reachable s h).2.2

set_option maxRecDepth 8000 in
/-- Witness for C2: a two-insert history and its non-overlap. -/
theorem c2_no_overlap_invariant_witness :
    LedgerNoOverlap [⟨1, 7, 1, civ 2020 1 1, some (civ 2020 6 30)⟩,
                     ⟨2, 7, 2, civ 2020 7 1, none⟩] :=
  c2_no_overlap_invariant _
    (.step _ _ (.step _ _ .nil (.insert _ _ (by decide) (by decide) (by decide)))
      (.insert _ _ (by decide) (by decide) (by decide)))

/-! ### Facts about the reconciliation trace, shared by C3, C4 and C10 -/

lemma pickLatestStart_mem_aux (l : List StrutturaResponsabile)
    (acc : Option StrutturaResponsabile) (c : StrutturaResponsabile)
    (h : l.foldl
      (fun acc r =>
        match acc with
        | none => some r
        | some b => if b.data_inizio < r.data_inizio then some r else some b)
      acc = some c) :
    acc = some c ∨ c ∈ l := by
  induction l generalizing acc with
  | nil => exact Or.inl h
  | cons r t ih =>
    rcases ih _ h with hacc | hmem
    · cases acc with
      | none =>
        simp only [] at hacc
        exact Or.inr (by rw [← Option.some_inj.1 hacc]; exact List.mem_cons_self r t)
      | some b =>
        simp only [] at hacc
        by_cases hb : b.data_inizio < r.data_inizio
        · rw [if_pos hb] at hacc
          exact Or.inr (by rw [← Option.some_inj.1 hacc]; exact List.mem_cons_self r t)
        · rw [if_neg hb] at hacc
          exact Or.inl hacc
    · exact Or.inr (List.mem_cons_of_mem r hmem)

lemma pickLatestStart_mem (l : List StrutturaResponsabile)
    (c : StrutturaResponsabile) (h : pickLatestStart l = some c) : c ∈ l := by
  rcases pickLatestStart_mem_aux l none c h with hacc | hmem
  · cases hacc
  · exact hmem

lemma pickLatestStart_all_eq (l : List StrutturaResponsabile)
    (r : StrutturaResponsabile) (hne : l ≠ []) (hall : ∀ x ∈ l, x = r) :
    pickLatestStart l = some r := by
  induction l with
  | nil => exact absurd rfl hne
  | cons a t ih =>
    have ha : a = r := hall a (List.mem_cons_self a t)
    cases t with
    | nil => simp [pickLatestStart, ha]
    | cons b t' =>
      have hb : b = r := hall b (List.mem_cons_of_mem a (List.mem_cons_self b t'))
      have ih' := ih (by simp)
        (fun x hx => hall x (List.mem_cons_of_mem a hx))
      unfold pickLatestStart at ih' ⊢
      simp only [List.foldl_cons] at ih' ⊢
      rw [ha] at *
      rw [hb] at *
      simpa using ih'

lemma currentAssignment_some (s : List StrutturaResponsabile) (upk : Nat)
    (d : Date) (c : StrutturaResponsabile)
    (h : currentAssignment s upk d = some c) :
    c ∈ s ∧ c.struttura = upk ∧ c.activeOn d = true := by
  have hmem := pickLatestStart_mem _ c h
  rw [List.mem_filter] at hmem
  obtain ⟨hmem, hact⟩ := hmem
  unfold assignmentsOf at hmem
  rw [List.mem_filter] at hmem
  exact ⟨hmem.1, by simpa using hmem.2, hact⟩

lemma currentAssignment_filter_eq (s : List StrutturaResponsabile) (upk : Nat)
    (d : Date) :
    currentAssignment s upk d =
      pickLatestStart (s.filter
        (fun r => r.activeOn d && decide (r.struttura = upk))) := by
  unfold currentAssignment assignmentsOf
  rw [List.filter_filter]

lemma currentAssignment_none (s : List StrutturaResponsabile) (upk : Nat)
    (d : Date)
    (h : ∀ r ∈ s, r.struttura = upk → r.activeOn d = false) :
    currentAssignment s upk d = none := by
  rw [currentAssignment_filter_eq]
  have : s.filter (fun r => r.activeOn d && decide (r.struttura = upk)) = [] := by
    rw [List.filter_eq_nil_iff]
    intro r hr
    by_cases hu : r.struttura = upk
    · simp [hu, h r hr hu]
    · simp [hu]
  rw [this]
  rfl

lemma activeOn_le_end (c : StrutturaResponsabile) (d : Date)
    (h : c.activeOn d = true) :
    c.data_inizio ≤ d ∧ (∀ e, c.data_fine = some e → d ≤ e) := by
  unfold StrutturaResponsabile.activeOn at h
  rw [Bool.and_eq_true] at h
  refine ⟨by simpa using h.1, fun e he => ?_⟩
  have := h.2
  rw [he] at this
  simpa using this

/-- With a non-overlapping ledger, a row of the unit active on `d` is the
only one (up to pk). -/
lemma active_unique (s : List StrutturaResponsabile) (upk : Nat) (d : Date)
    (c : StrutturaResponsabile) (hnov : LedgerNoOverlap s)
    (hc : c ∈ s) (hcu : c.struttura = upk) (hca : c.activeOn d = true)
    (o : StrutturaResponsabile) (ho : o ∈ s) (hou : o.struttura = upk)
    (hpk : o.pk ≠ c.pk) : o.activeOn d = false := by
  by_contra hoa
  rw [Bool.not_eq_false] at hoa
  have hov := hnov o ho c hc hpk (by rw [hou, hcu])
  obtain ⟨hos, hoe⟩ := activeOn_le_end o d hoa
  obtain ⟨hcs, hce⟩ := activeOn_le_end c d hca
  unfold overlapB at hov
  rw [Bool.and_eq_false_iff] at hov
  rcases hov with hov | hov
  · cases hcf : c.data_fine with
    | none => rw [hcf] at hov; exact absurd hov (by simp)
    | some e2 =>
      rw [hcf] at hov
      rw [decide_eq_false_iff_not] at hov
      exact hov (le_trans hos (hce e2 hcf))
  · cases hof : o.data_fine with
    | none => rw [hof] at hov; exact absurd hov (by simp)
    | some e1 =>
      rw [hof] at hov
      rw [decide_eq_false_iff_not] at hov
      exact hov (le_trans hcs (hoe e1 hof))

lemma le_foldl_max (l : List StrutturaResponsabile) (init : Nat) :
    init ≤ l.foldl (fun m o => max m o.pk) init ∧
    ∀ o ∈ l, o.pk ≤ l.foldl (fun m o => max m o.pk) init := by
  induction l generalizing init with
  | nil => exact ⟨le_refl _, fun o ho => absurd ho (List.not_mem_nil o)⟩
  | cons a t ih =>
    obtain ⟨h1, h2⟩ := ih (max init a.pk)
    refine ⟨le_trans (le_max_left _ _) h1, fun o ho => ?_⟩
    rcases List.mem_cons.1 ho with rfl | ho
    · exact le_trans (le_max_right init o.pk) h1
    · exact h2 o ho

lemma freshPk_not_mem (l : List StrutturaResponsabile) :
    ∀ o ∈ l, o.pk ≠ freshPk l := by
  intro o ho
  have := (le_foldl_max l 0).2 o ho
  unfold freshPk
  omega

lemma overlapCheckB_false_intro (ledger : List StrutturaResponsabile)
    (self : StrutturaResponsabile)
    (h : ∀ o ∈ ledger, o.struttura = self.struttura → o.pk ≠ self.pk →
      (decide (o.data_inizio ≤ self.data_fine.getD pyMaxDate) &&
       (match o.data_fine with
        | none => true
        | some e => decide (self.data_inizio ≤ e))) = false) :
    overlapCheckB ledger self = false := by
  unfold overlapCheckB
  rw [List.any_eq_false]
  intro o ho
  rw [List.mem_filter] at ho
  obtain ⟨ho, hcond⟩ := ho
  rw [Bool.and_eq_true] at hcond
  have hu : o.struttura = self.struttura := by simpa using hcond.1
  have hpk : o.pk ≠ self.pk := by simpa using hcond.2
  simp [h o ho hu hpk]

/-- Every row of the unit in `ledger` ends strictly before the start of a
fresh open-ended row ⇒ its insert passes `full_clean`. -/
lemma srClean_insert_none (ledger : List StrutturaResponsabile)
    (r : StrutturaResponsabile) (hopen : r.data_fine = none)
    (h : ∀ o ∈ ledger, o.struttura = r.struttura →
      ∃ e, o.data_fine = some e ∧ e < r.data_inizio) :
    srClean ledger r = none := by
  rw [srClean_none_iff]
  constructor
  · unfold dateIncoherentB
    rw [hopen]
  · by_cases h0 : r.struttura = 0
    · exact Or.inl h0
    · refine Or.inr (overlapCheckB_false_intro ledger r ?_)
      intro o ho hu _
      rcases h o ho hu with ⟨e, he, helt⟩
      rw [Bool.and_eq_false_iff]
      refine Or.inr ?_
      rw [he]
      show decide (r.data_inizio ≤ e) = false
      rw [decide_eq_false_iff_not]
      exact not_le.2 helt

lemma sync_noop (u : Struttura) (s : List StrutturaResponsabile) (d : Date)
    (c : StrutturaResponsabile) (m : Nat)
    (hcur : currentAssignment s u.pk d = some c)
    (hm : u.responsabile = some m) (he : c.responsabile = m) :
    sync_assignment_from_fk u s d = (s, none) := by
  unfold sync_assignment_from_fk
  rw [hcur, hm]
  simp [he]

lemma sync_step_close (u : Struttura) (s : List StrutturaResponsabile) (d : Date)
    (c : StrutturaResponsabile)
    (hcur : currentAssignment s u.pk d = some c)
    (hng : ∀ m, u.responsabile = some m → c.responsabile ≠ m) :
    sync_assignment_from_fk u s d =
      (match syncCloseCurrent s c d with
       | (l1, some err) => (l1, some err)
       | (l1, none) =>
         match u.responsabile with
         | none => (l1, none)
         | some m => syncOpenNew u l1 m d) := by
  unfold sync_assignment_from_fk
  rw [hcur]
  cases hm : u.responsabile with
  | none => simp
  | some m => simp [hng m hm]

lemma sync_cur_none (u : Struttura) (s : List StrutturaResponsabile) (d : Date)
    (hcur : currentAssignment s u.pk d = none) :
    sync_assignment_from_fk u s d =
      (match u.responsabile with
       | none => (s, none)
       | some m => syncOpenNew u s m d) := by
  unfold sync_assignment_from_fk
  rw [hcur]
  cases hm : u.responsabile with
  | none => simp
  | some m => simp

lemma syncCloseCurrent_skip (s : List StrutturaResponsabile)
    (c : StrutturaResponsabile) (d : Date)
    (h : c.data_fine = some (closeDate c d)) :
    syncCloseCurrent s c d = (s, none) := by
  simp only [syncCloseCurrent]
  rw [if_pos h]

lemma syncCloseCurrent_save (s : List StrutturaResponsabile)
    (c : StrutturaResponsabile) (d : Date)
    (hne : c.data_fine ≠ some (closeDate c d))
    (hsr : srClean s { c with data_fine := some (closeDate c d) } = none) :
    syncCloseCurrent s c d =
      (updateRec s { c with data_fine := some (closeDate c d) }, none) := by
  simp only [syncCloseCurrent]
  rw [if_neg hne, hsr]

lemma syncCloseCurrent_err (s : List StrutturaResponsabile)
    (c : StrutturaResponsabile) (d : Date) (err : LedgerError)
    (hne : c.data_fine ≠ some (closeDate c d))
    (hsr : srClean s { c with data_fine := some (closeDate c d) } = some err) :
    syncCloseCurrent s c d = (s, some err) := by
  simp only [syncCloseCurrent]
  rw [if_neg hne, hsr]

lemma syncOpenNew_ok (u : Struttura) (l : List StrutturaResponsabile)
    (m : Nat) (d : Date) (hsr : srClean l (openRow u l m d) = none) :
    syncOpenNew u l m d = (l ++ [openRow u l m d], none) := by
  simp only [syncOpenNew]
  rw [hsr]

lemma syncOpenNew_err (u : Struttura) (l : List StrutturaResponsabile)
    (m : Nat) (d : Date) (err : LedgerError)
    (hsr : srClean l (openRow u l m d) = some err) :
    syncOpenNew u l m d = (l, some err) := by
  simp only [syncOpenNew]
  rw [hsr]

lemma sync_close_then_open (u : Struttura) (s l1 : List StrutturaResponsabile)
    (d : Date) (c : StrutturaResponsabile) (m : Nat)
    (hcur : currentAssignment s u.pk d = some c)
    (hm : u.responsabile = some m) (hne : c.responsabile ≠ m)
    (hclose : syncCloseCurrent s c d = (l1, none)) :
    sync_assignment_from_fk u s d = syncOpenNew u l1 m d := by
  rw [sync_step_close u s d c hcur
    (fun m' hm' => by rw [hm] at hm'; injection hm' with h; rw [← h]; exact hne)]
  rw [hclose, hm]

lemma sync_close_then_none (u : Struttura) (s l1 : List StrutturaResponsabile)
    (d : Date) (c : StrutturaResponsabile)
    (hcur : currentAssignment s u.pk d = some c)
    (hm : u.responsabile = none)
    (hclose : syncCloseCurrent s c d = (l1, none)) :
    sync_assignment_from_fk u s d = (l1, none) := by
  rw [sync_step_close u s d c hcur
    (fun m' hm' => absurd (hm ▸ hm') (by simp))]
  rw [hclose, hm]

lemma sync_close_err (u : Struttura) (s l1 : List StrutturaResponsabile)
    (d : Date) (c : StrutturaResponsabile) (err : LedgerError)
    (hcur : currentAssignment s u.pk d = some c)
    (hng : ∀ m', u.responsabile = some m' → c.responsabile ≠ m')
    (hclose : syncCloseCurrent s c d = (l1, some err)) :
    sync_assignment_from_fk u s d = (l1, some err) := by
  rw [sync_step_close u s d c hcur hng, hclose]

lemma sync_none_then_open (u : Struttura) (s : List StrutturaResponsabile)
    (d : Date) (m : Nat)
    (hcur : currentAssignment s u.pk d = none)
    (hm : u.responsabile = some m) :
    sync_assignment_from_fk u s d = syncOpenNew u s m d := by
  rw [sync_cur_none u s d hcur, hm]

lemma sync_none_none (u : Struttura) (s : List StrutturaResponsabile) (d : Date)
    (hcur : currentAssignment s u.pk d = none)
    (hm : u.responsabile = none) :
    sync_assignment_from_fk u s d = (s, none) := by
  rw [sync_cur_none u s d hcur, hm]

lemma openRow_active (u : Struttura) (l : List StrutturaResponsabile)
    (m : Nat) (d : Date) (hud : u.data_inizio.getD d ≤ d) :
    (openRow u l m d).activeOn d = true := by
  unfold openRow StrutturaResponsabile.activeOn
  simp [max_eq_left hud]

/-- After a successful insert of the open row, the open row is the unit\'s
only active assignment on `d`, so re-running the reconciliation is a step-2
no-op. -/
lemma sync_after_insert (u : Struttura) (l1 : List StrutturaResponsabile)
    (d : Date) (m : Nat)
    (hupk : 0 < u.pk) (hm : u.responsabile = some m)
    (hud : u.data_inizio.getD d ≤ d)
    (hle : ∀ o ∈ l1, o.data_inizio ≤ pyMaxDate)
    (hsr : srClean l1 (openRow u l1 m d) = none) :
    sync_assignment_from_fk u (l1 ++ [openRow u l1 m d]) d
      = (l1 ++ [openRow u l1 m d], none) := by
  have hinact : ∀ o ∈ l1, o.struttura = u.pk → o.activeOn d = false := by
    intro o ho hou
    rcases (srClean_none_iff l1 (openRow u l1 m d)).1 hsr with ⟨-, h0 | hchk⟩
    · exact absurd h0 (by unfold openRow; simpa using (by omega : ¬ u.pk = 0))
    · have hcond := overlapCheckB_false_at l1 (openRow u l1 m d) o hchk ho
        (by unfold openRow; simpa using hou) (freshPk_not_mem l1 o ho)
      rw [Bool.and_eq_false_iff] at hcond
      rcases hcond with hcond | hcond
      · rw [decide_eq_false_iff_not] at hcond
        exact absurd (by unfold openRow; simpa using hle o ho) hcond
      · cases hof : o.data_fine with
        | none => rw [hof] at hcond; exact absurd hcond (by simp)
        | some e =>
          rw [hof] at hcond
          rw [decide_eq_false_iff_not] at hcond
          have hstart : (openRow u l1 m d).data_inizio = d := by
            unfold openRow
            simpa using max_eq_left hud
          rw [hstart] at hcond
          unfold StrutturaResponsabile.activeOn
          rw [hof, Bool.and_eq_false_iff]
          refine Or.inr ?_
          rw [decide_eq_false_iff_not]
          exact hcond
  have hcur2 : currentAssignment (l1 ++ [openRow u l1 m d]) u.pk d
      = some (openRow u l1 m d) := by
    rw [currentAssignment_filter_eq, List.filter_append]
    have hf1 : l1.filter (fun r => r.activeOn d && decide (r.struttura = u.pk)) = [] := by
      rw [List.filter_eq_nil_iff]
      intro o ho
      by_cases hou : o.struttura = u.pk
      · simp [hinact o ho hou]
      · simp [hou]
    have hf2 : [openRow u l1 m d].filter
        (fun r => r.activeOn d && decide (r.struttura = u.pk)) = [openRow u l1 m d] := by
      have hact := openRow_active u l1 m d hud
      have hstrut : (openRow u l1 m d).struttura = u.pk := rfl
      simp [hact, hstrut]
    rw [hf1, hf2]
    rfl
  exact sync_noop u _ d (openRow u l1 m d) m hcur2 hm rfl

/-- C3 (amended): with the current assignment starting strictly before the
effective date and every other stored assignment of the unit ending
strictly before the effective date, the reconciliation raises nothing: the
closure shrinks the current interval and the defensive re-validation of
the insert passes. -/
theorem c3_defensive_check_amended (u : Struttura) (s : List StrutturaResponsabile)
    (d : Date) (c : StrutturaResponsabile)
    (hnd : (s.map (fun r => r.pk)).Nodup)
    (hnov : LedgerNoOverlap s)
    (hcur : currentAssignment s u.pk d = some c)
    (hstart : c.data_inizio < d)
    (hothers : ∀ r ∈ s, r.struttura = u.pk → r.pk ≠ c.pk →
      ∃ e, r.data_fine = some e ∧ e < d) :
    (sync_assignment_from_fk u s d).2 = none := by
  obtain ⟨hcmem, hcu, hca⟩ := currentAssignment_some s u.pk d c hcur
  have hle : c.data_inizio ≤ d - 1 := Int.le_sub_one_of_lt hstart
  have hnoclamp : ¬ (d - 1 < c.data_inizio) := not_lt.2 hle
  have hcd : closeDate c d = d - 1 := if_neg hnoclamp
  have hclose : (syncCloseCurrent s c d).2 = none ∧
      (∀ o ∈ (syncCloseCurrent s c d).1, o.struttura = u.pk →
        ∃ e, o.data_fine = some e ∧ e < d) := by
    simp only [syncCloseCurrent]
    rw [hcd]
    by_cases hskip : c.data_fine = some (d - 1)
    · rw [if_pos hskip]
      refine ⟨rfl, ?_⟩
      intro o ho hou
      by_cases hpk : o.pk = c.pk
      · have ho_eq : o = c := List.inj_on_of_nodup_map hnd ho hcmem hpk
        rw [ho_eq, hskip]
        exact ⟨d - 1, rfl, by linarith⟩
      · exact hothers o ho hou hpk
    · rw [if_neg hskip]
      have hcl : srClean s {c with data_fine := some (d - 1)} = none := by
        rw [srClean_none_iff]
        constructor
        · show decide (d - 1 < c.data_inizio) = false
          rw [decide_eq_false_iff_not]
          exact hnoclamp
        · by_cases h0 : c.struttura = 0
          · exact Or.inl h0
          · refine Or.inr (overlapCheckB_false_intro _ _ ?_)
            intro o ho hou hpk
            have hobf := hnov o ho c hcmem (by simpa using hpk) (by simpa using hou)
            unfold overlapB at hobf
            rw [Bool.and_eq_false_iff] at hobf
            rw [Bool.and_eq_false_iff]
            rcases hobf with hobf | hobf
            · refine Or.inl ?_
              cases hcf : c.data_fine with
              | none => rw [hcf] at hobf; exact absurd hobf (by simp)
              | some e2 =>
                rw [hcf] at hobf
                rw [decide_eq_false_iff_not] at hobf
                obtain ⟨-, hce⟩ := activeOn_le_end c d hca
                have he2 : d ≤ e2 := hce e2 hcf
                show decide (o.data_inizio ≤ (some (d - 1) : Option Date).getD pyMaxDate)
                  = false
                rw [decide_eq_false_iff_not]
                simp only [Option.getD_some]
                intro hle2
                exact hobf (by linarith)
            · exact Or.inr hobf
      rw [hcl]
      refine ⟨rfl, ?_⟩
      intro o ho hou
      unfold updateRec at ho
      rcases List.mem_map.1 ho with ⟨o0, ho0, rfl⟩
      by_cases hpk : o0.pk = c.pk
      · rw [if_pos hpk]
        exact ⟨d - 1, rfl, by linarith⟩
      · rw [if_neg hpk]
        rw [if_neg hpk] at hou
        exact hothers o0 ho0 hou hpk
  rcases hcc : syncCloseCurrent s c d with ⟨l1, err1⟩
  rw [hcc] at hclose
  obtain ⟨herr, hrows⟩ := hclose
  have herr2 : err1 = none := herr
  subst herr2
  have hopen : ∀ m, (syncOpenNew u l1 m d).2 = none := by
    intro m
    simp only [syncOpenNew]
    have hsr : srClean l1 (openRow u l1 m d) = none := by
      apply srClean_insert_none _ _ rfl
      intro o ho hou
      rcases hrows o ho hou with ⟨e, he, helt⟩
      exact ⟨e, he, lt_of_lt_of_le helt (le_max_left _ _)⟩
    rw [hsr]
  cases hm : u.responsabile with
  | none =>
    have hng : ∀ m, u.responsabile = some m → c.responsabile ≠ m := by
      intro m hm'
      rw [hm] at hm'
      exact absurd hm' (by simp)
    rw [sync_step_close u s d c hcur hng, hcc, hm]
  | some m =>
    by_cases heq : c.responsabile = m
    · rw [sync_noop u s d c m hcur hm heq]
    · have hng : ∀ m', u.responsabile = some m' → c.responsabile ≠ m' := by
        intro m' hm'
        rw [hm] at hm'
        injection hm' with h
        rw [← h]
        exact heq
      rw [sync_step_close u s d c hcur hng, hcc, hm]
      exact hopen m

set_option maxRecDepth 8000 in
/-- Witness for the amended C3 at a concrete ledger. -/
theorem c3_defensive_check_amended_witness :
    (sync_assignment_from_fk ⟨7, none, some "1", some 6, some (civ 2021 1 1), none⟩
      [⟨1, 7, 5, civ 2021 1 1, none⟩] (civ 2022 3 10)).2 = none :=
  c3_defensive_check_amended _ _ _ ⟨1, 7, 5, civ 2021 1 1, none⟩
    (by decide) (by unfold LedgerNoOverlap; decide) (by decide) (by decide)
    (by
      intro r hr hu hpk
      rw [List.mem_singleton.1 hr] at hpk
      exact absurd rfl hpk)

/-- C4 (amended): reconciliation is idempotent for a unit whose
`data_inizio` is on or before the effective date: over a ledger of valid
Python dates with no per-unit overlap, if a reconcile call succeeds, the
identical second call returns the unchanged ledger with no error (it is
caught by the step-2 no-op check, or finds nothing left to do). -/
theorem c4_idempotence_amended (u : Struttura) (s s1 : List StrutturaResponsabile) (d : Date)
    (hupk : 0 < u.pk)
    (hvalid : ∀ r ∈ s, r.data_inizio ≤ pyMaxDate)
    (hnov : LedgerNoOverlap s)
    (hud : u.data_inizio.getD d ≤ d)
    (h1 : sync_assignment_from_fk u s d = (s1, none)) :
    sync_assignment_from_fk u s1 d = (s1, none) := by
  cases hcur : currentAssignment s u.pk d with
  | none =>
    cases hm : u.responsabile with
    | none =>
      rw [sync_none_none u s d hcur hm] at h1
      rw [Prod.mk.injEq] at h1
      rw [← h1.1]
      exact sync_none_none u s d hcur hm
    | some m =>
      rw [sync_none_then_open u s d m hcur hm] at h1
      cases hsr : srClean s (openRow u s m d) with
      | some err =>
        rw [syncOpenNew_err u s m d err hsr, Prod.mk.injEq] at h1
        exact absurd h1.2 (by simp)
      | none =>
        rw [syncOpenNew_ok u s m d hsr, Prod.mk.injEq] at h1
        rw [← h1.1]
        exact sync_after_insert u s d m hupk hm hud hvalid hsr
  | some c =>
    obtain ⟨hcmem, hcu, hca⟩ := currentAssignment_some s u.pk d c hcur
    have hcstart := (activeOn_le_end c d hca).1
    cases hm : u.responsabile with
    | none =>
      by_cases hskip : c.data_fine = some (closeDate c d)
      · rw [sync_close_then_none u s s d c hcur hm
          (syncCloseCurrent_skip s c d hskip)] at h1
        rw [Prod.mk.injEq] at h1
        rw [← h1.1]
        exact sync_close_then_none u s s d c hcur hm (syncCloseCurrent_skip s c d hskip)
      · cases hsr : srClean s { c with data_fine := some (closeDate c d) } with
        | some err =>
          rw [sync_close_err u s s d c err hcur
            (fun m' hm' => absurd (hm ▸ hm') (by simp))
            (syncCloseCurrent_err s c d err hskip hsr), Prod.mk.injEq] at h1
          exact absurd h1.2 (by simp)
        | none =>
          rw [sync_close_then_none u s _ d c hcur hm
            (syncCloseCurrent_save s c d hskip hsr), Prod.mk.injEq] at h1
          rw [← h1.1]
          -- s1 = updateRec s c'
          by_cases hclamp : d - 1 < c.data_inizio
          · -- clamped one-day closure, still active on d
            have hcd : closeDate c d = c.data_inizio := if_pos hclamp
            have hceq : c.data_inizio = d := by
              have := Int.lt_iff_add_one_le.1 hclamp
              have h2 : d ≤ c.data_inizio := by linarith
              exact le_antisymm hcstart h2
            have hact : ({ c with data_fine := some (closeDate c d) }
                : StrutturaResponsabile).activeOn d = true := by
              unfold StrutturaResponsabile.activeOn
              rw [hcd]
              simp [hceq]
            have hcur2 : currentAssignment
                (updateRec s { c with data_fine := some (closeDate c d) }) u.pk d
                = some { c with data_fine := some (closeDate c d) } := by
              rw [currentAssignment_filter_eq]
              apply pickLatestStart_all_eq
              · apply List.ne_nil_of_mem (a := { c with data_fine := some (closeDate c d) })
                rw [List.mem_filter]
                constructor
                · unfold updateRec
                  exact List.mem_map.2 ⟨c, hcmem, by rw [if_pos rfl]⟩
                · rw [Bool.and_eq_true]
                  exact ⟨hact, by simpa using hcu⟩
              · intro x hx
                rw [List.mem_filter] at hx
                obtain ⟨hx, hpred⟩ := hx
                unfold updateRec at hx
                rcases List.mem_map.1 hx with ⟨o, ho, rfl⟩
                by_cases hpk : o.pk = c.pk
                · rw [if_pos hpk]
                · rw [if_neg hpk] at hpred ⊢
                  rw [Bool.and_eq_true] at hpred
                  have hostrut : o.struttura = u.pk := by simpa using hpred.2
                  exact absurd hpred.1
                    (by rw [active_unique s u.pk d c hnov hcmem hcu hca o ho hostrut hpk]; simp)
            have hskip2 : ({ c with data_fine := some (closeDate c d) }
                : StrutturaResponsabile).data_fine
                = some (closeDate { c with data_fine := some (closeDate c d) } d) := by
              show some (closeDate c d) = some (closeDate { c with data_fine := some (closeDate c d) } d)
              unfold closeDate
              rfl
            exact sync_close_then_none u _ _ d _ hcur2 hm
              (syncCloseCurrent_skip _ _ d hskip2)
          · -- closed strictly before d: nothing active on d
            have hcd : closeDate c d = d - 1 := if_neg hclamp
            have hcur2 : currentAssignment
                (updateRec s { c with data_fine := some (closeDate c d) }) u.pk d
                = none := by
              apply currentAssignment_none
              intro x hx hxu
              unfold updateRec at hx
              rcases List.mem_map.1 hx with ⟨o, ho, rfl⟩
              by_cases hpk : o.pk = c.pk
              · rw [if_pos hpk]
                unfold StrutturaResponsabile.activeOn
                rw [Bool.and_eq_false_iff]
                refine Or.inr ?_
                show decide (d ≤ closeDate c d) = false
                rw [hcd, decide_eq_false_iff_not]
                intro hcon
                linarith
              · rw [if_neg hpk]
                rw [if_neg hpk] at hxu
                exact active_unique s u.pk d c hnov hcmem hcu hca o ho hxu hpk
            exact sync_none_none u _ d hcur2 hm
    | some m =>
      by_cases heq : c.responsabile = m
      · rw [sync_noop u s d c m hcur hm heq, Prod.mk.injEq] at h1
        rw [← h1.1]
        exact sync_noop u s d c m hcur hm heq
      · by_cases hskip : c.data_fine = some (closeDate c d)
        · rw [sync_close_then_open u s s d c m hcur hm heq
            (syncCloseCurrent_skip s c d hskip)] at h1
          cases hsr : srClean s (openRow u s m d) with
          | some err =>
            rw [syncOpenNew_err u s m d err hsr, Prod.mk.injEq] at h1
            exact absurd h1.2 (by simp)
          | none =>
            rw [syncOpenNew_ok u s m d hsr, Prod.mk.injEq] at h1
            rw [← h1.1]
            exact sync_after_insert u s d m hupk hm hud hvalid hsr
        · cases hsrc : srClean s { c with data_fine := some (closeDate c d) } with
          | some err =>
            rw [sync_close_err u s s d c err hcur
              (fun m' hm' => by rw [hm] at hm'; injection hm' with h; rw [← h]; exact heq)
              (syncCloseCurrent_err s c d err hskip hsrc), Prod.mk.injEq] at h1
            exact absurd h1.2 (by simp)
          | none =>
            rw [sync_close_then_open u s _ d c m hcur hm heq
              (syncCloseCurrent_save s c d hskip hsrc)] at h1
            have hvalid2 : ∀ o ∈ updateRec s { c with data_fine := some (closeDate c d) },
                o.data_inizio ≤ pyMaxDate := by
              intro o ho
              unfold updateRec at ho
              rcases List.mem_map.1 ho with ⟨o0, ho0, rfl⟩
              by_cases hpk : o0.pk = c.pk
              · rw [if_pos hpk]
                exact hvalid c hcmem
              · rw [if_neg hpk]
                exact hvalid o0 ho0
            cases hsr : srClean (updateRec s { c with data_fine := some (closeDate c d) })
                (openRow u (updateRec s { c with data_fine := some (closeDate c d) }) m d) with
            | some err =>
              rw [syncOpenNew_err _ _ m d err hsr, Prod.mk.injEq] at h1
              exact absurd h1.2 (by simp)
            | none =>
              rw [syncOpenNew_ok _ _ m d hsr, Prod.mk.injEq] at h1
              rw [← h1.1]
              exact sync_after_insert u _ d m hupk hm hud hvalid2 hsr


set_option maxRecDepth 8000 in
/-- Witness for the amended C4: a first call from the empty ledger, the
second call a no-op. -/
theorem c4_idempotence_amended_witness :
    sync_assignment_from_fk ⟨7, none, some "1", some 1, some (civ 2021 1 1), none⟩
      [⟨1, 7, 1, civ 2022 3 10, none⟩] (civ 2022 3 10)
      = ([⟨1, 7, 1, civ 2022 3 10, none⟩], none) :=
  c4_idempotence_amended ⟨7, none, some "1", some 1, some (civ 2021 1 1), none⟩
    [] [⟨1, 7, 1, civ 2022 3 10, none⟩] (civ 2022 3 10)
    (by decide)
    (by intro r hr; cases hr)
    (by intro r1 hr1; cases hr1)
    (by decide)
    (by decide)

lemma list_map_eq_self (l : List StrutturaResponsabile)
    (f : StrutturaResponsabile → StrutturaResponsabile)
    (h : l.map f = l) : ∀ x ∈ l, f x = x := by
  induction l with
  | nil => intro x hx; cases hx
  | cons a t ih =>
    rw [List.map_cons] at h
    injection h with h1 h2
    intro x hx
    rcases List.mem_cons.1 hx with rfl | hx
    · exact h1
    · exact ih h2 x hx

/-- C10 (amended): whenever the reconciliation closes the current
assignment with a changed end date and the subsequent insert raises, the
final ledger is exactly the pre-call ledger with that closure persisted —
the new assignment is absent and the pre-call state is not restored. -/
theorem c10_nonatomic_amended (u : Struttura) (s : List StrutturaResponsabile)
    (d : Date) (c : StrutturaResponsabile) (m : Nat) (err : LedgerError)
    (hcur : currentAssignment s u.pk d = some c)
    (hm : u.responsabile = some m)
    (hne : c.responsabile ≠ m)
    (hchanged : c.data_fine ≠ some (closeDate c d))
    (hclean : srClean s { c with data_fine := some (closeDate c d) } = none)
    (hfail : srClean (updateRec s { c with data_fine := some (closeDate c d) })
        (openRow u (updateRec s { c with data_fine := some (closeDate c d) }) m d)
        = some err) :
    sync_assignment_from_fk u s d =
      (updateRec s { c with data_fine := some (closeDate c d) }, some err) ∧
    updateRec s { c with data_fine := some (closeDate c d) } ≠ s := by
  obtain ⟨hcmem, -, -⟩ := currentAssignment_some s u.pk d c hcur
  constructor
  · rw [sync_close_then_open u s _ d c m hcur hm hne
      (syncCloseCurrent_save s c d hchanged hclean)]
    exact syncOpenNew_err _ _ m d err hfail
  · intro hEq
    have hfix := list_map_eq_self s _ hEq c hcmem
    rw [if_pos rfl] at hfix
    exact hchanged ((congrArg StrutturaResponsabile.data_fine hfix).symm)

set_option maxRecDepth 8000 in
/-- Witness for the amended C10 at the back-dated concrete scenario. -/
theorem c10_nonatomic_amended_witness :
    let s : List StrutturaResponsabile :=
      [⟨1, 7, 1, civ 2021 1 1, some (civ 2022 3 9)⟩, ⟨2, 7, 2, civ 2022 3 10, none⟩]
    let u : Struttura := ⟨7, none, some "1", some 3, some (civ 2021 1 1), none⟩
    let c : StrutturaResponsabile := ⟨1, 7, 1, civ 2021 1 1, some (civ 2022 3 9)⟩
    sync_assignment_from_fk u s (civ 2021 6 1) =
      (updateRec s { c with data_fine := some (closeDate c (civ 2021 6 1)) },
        some .overlapping) ∧
    updateRec s { c with data_fine := some (closeDate c (civ 2021 6 1)) } ≠ s :=
  c10_nonatomic_amended ⟨7, none, some "1", some 3, some (civ 2021 1 1), none⟩
    [⟨1, 7, 1, civ 2021 1 1, some (civ 2022 3 9)⟩, ⟨2, 7, 2, civ 2022 3 10, none⟩]
    (civ 2021 6 1) ⟨1, 7, 1, civ 2021 1 1, some (civ 2022 3 9)⟩ 3 .overlapping
    (by decide) rfl (by decide) (by decide) (by decide) (by decide)

/-! ### C5: sibling code generation (failing input) -/

set_option maxRecDepth 2000 in
/-- C5 (evaluation at the failing input): creating 11 units one at a time
under parent code "1" yields `1.1 … 1.9, 1.10` and then `1.10` again — at
the 11th creation the string-ordered last sibling is `"1.9"`, so the
generator hands out `parentCode.10` twice and the codes are not pairwise
distinct (the `codice` column also carries no uniqueness constraint). -/
theorem c5_duplicate_code_eval :
    createSiblings "1" 11 =
      ["1.1", "1.2", "1.3", "1.4", "1.5", "1.6", "1.7", "1.8", "1.9",
       "1.10", "1.10"] ∧
    ¬ (createSiblings "1" 11).Nodup := by
  constructor
  · decide
  · decide

/-! ### C8: point-in-time manager resolution -/

/-- The spec's resolution rule, stated from §4.4's words: prefer the
Ledger's `activeOn` result if that person is independently active on the
date; otherwise fall back to `Unit.currentManager` if that person is
active; otherwise vacant. -/
def managerOnDateSpec (people : List Responsabile) (u : Struttura)
    (ledger : List StrutturaResponsabile) (d : Date) : Option Responsabile :=
  let fallback :=
    match u.responsabile.bind (findPerson people) with
    | some p => if p.is_active d then some p else none
    | none => none
  match (currentAssignment ledger u.pk d).bind
      (fun a => findPerson people a.responsabile) with
  | some r => if r.is_active d then some r else fallback
  | none => fallback

set_option maxRecDepth 8000 in
/-- C8: `responsabile_on` refines the spec's resolution rule (ledger's
active row preferred only when its person is employment-active, else the
`responsabile` FK if active, else vacant), and on the ledger
`[person 1: 2020-01-01..2020-06-30, person 2: 2020-07-01..open]` with both
persons active it resolves person 1 on 2020-05-01, person 2 on 2020-07-15
and person 1 on the inclusive endpoint 2020-06-30. -/
theorem c8_point_in_time :
    (∀ (people : List Responsabile) (u : Struttura)
       (ledger : List StrutturaResponsabile) (d : Date),
       responsabile_on people u ledger d = managerOnDateSpec people u ledger d) ∧
    (let people : List Responsabile :=
       [⟨1, some (civ 2019 1 1), none⟩, ⟨2, some (civ 2019 1 1), none⟩]
     let u : Struttura := ⟨7, none, some "1", none, some (civ 2019 1 1), none⟩
     let ledger : List StrutturaResponsabile :=
       [⟨1, 7, 1, civ 2020 1 1, some (civ 2020 6 30)⟩, ⟨2, 7, 2, civ 2020 7 1, none⟩]
     responsabile_on people u ledger (civ 2020 5 1) = some ⟨1, some (civ 2019 1 1), none⟩ ∧
     responsabile_on people u ledger (civ 2020 7 15) = some ⟨2, some (civ 2019 1 1), none⟩ ∧
     responsabile_on people u ledger (civ 2020 6 30) = some ⟨1, some (civ 2019 1 1), none⟩) := by
  constructor
  · intro people u ledger d
    unfold responsabile_on managerOnDateSpec fkFallback
    cases hca : currentAssignment ledger u.pk d with
    | none =>
      cases hr : u.responsabile with
      | none => simp [Option.bind]
      | some i => cases hfp : findPerson people i <;> simp [Option.bind, hfp]
    | some a =>
      cases hf : findPerson people a.responsabile with
      | none =>
        cases hr : u.responsabile with
        | none => simp [Option.bind, hf]
        | some i => cases hfp : findPerson people i <;> simp [Option.bind, hf, hfp]
      | some r =>
        by_cases hact : r.is_active d
        · simp [Option.bind, hf, hact]
        · cases hr : u.responsabile with
          | none => simp [Option.bind, hf, hact]
          | some i => cases hfp : findPerson people i <;> simp [Option.bind, hf, hact, hfp]
  · refine ⟨by decide, by decide, by decide⟩

lemma iterPar_none (env : HEnv) (n : Nat) : iterPar env n none = none := by
  induction n with
  | zero => rfl
  | succ n ih => show iterPar env n (Option.bind none env.parent) = none; exact ih

lemma iterPar_succ_right (env : HEnv) (n : Nat) (s : Option Nat) :
    iterPar env (n + 1) s = (iterPar env n s).bind env.parent := by
  induction n generalizing s with
  | zero => rfl
  | succ n ih =>
    show iterPar env (n + 1) (s.bind env.parent) = _
    rw [ih]
    rfl

lemma iterPar_add (env : HEnv) (a b : Nat) (s : Option Nat) :
    iterPar env (a + b) s = iterPar env b (iterPar env a s) := by
  induction b with
  | zero => rfl
  | succ b ih =>
    rw [show a + (b + 1) = (a + b) + 1 from rfl, iterPar_succ_right, ih,
      iterPar_succ_right]

lemma iterPar_none_mono (env : HEnv) (s : Option Nat) (m n : Nat)
    (h : iterPar env m s = none) (hmn : m ≤ n) : iterPar env n s = none := by
  obtain ⟨d, rfl⟩ : ∃ d, n = m + d := ⟨n - m, by omega⟩
  rw [iterPar_add, h, iterPar_none]

lemma chain_mem (env : HEnv) (hwf : HWF env) (p : Nat) (hp : p ∈ env.units)
    (n : Nat) (v : Nat) (h : iterPar env n (some p) = some v) : v ∈ env.units := by
  induction n generalizing v with
  | zero =>
    have : p = v := by injection h
    rw [← this]
    exact hp
  | succ n ih =>
    rw [iterPar_succ_right] at h
    cases hw : iterPar env n (some p) with
    | none => rw [hw] at h; exact absurd h (by simp)
    | some w =>
      rw [hw] at h
      simp only [Option.some_bind] at h
      exact (hwf w v h).2

lemma iter_distinct_le (env : HEnv) (p : Nat) (m : Nat)
    (hmem : ∀ i < m, ∃ v, iterPar env i (some p) = some v ∧ v ∈ env.units)
    (hdist : ∀ i j, i < j → j < m →
      iterPar env i (some p) ≠ iterPar env j (some p)) :
    m ≤ env.units.length := by
  have hnd : ((List.range m).map (fun i => iterPar env i (some p))).Nodup := by
    refine List.Nodup.map_on ?_ (List.nodup_range _)
    intro i hi j hj hf
    rw [List.mem_range] at hi hj
    rcases lt_trichotomy i j with hlt | heq | hgt
    · exact absurd hf (hdist i j hlt hj)
    · exact heq
    · exact absurd hf.symm (hdist j i hgt hi)
  have hsub : ((List.range m).map (fun i => iterPar env i (some p))) ⊆
      env.units.map some := by
    intro x hx
    rcases List.mem_map.1 hx with ⟨i, hi, rfl⟩
    rw [List.mem_range] at hi
    rcases hmem i hi with ⟨v, hv, hvm⟩
    rw [hv]
    exact List.mem_map.2 ⟨v, hvm, rfl⟩
  have hle := (List.subperm_of_subset hnd hsub).length_le
  simpa using hle

lemma exists_none_le (env : HEnv) (hwf : HWF env) (p : Nat)
    (hp : p ∈ env.units) (hterm : ∃ n, iterPar env n (some p) = none) :
    ∃ m ≤ env.units.length, iterPar env m (some p) = none := by
  have hm := Nat.find_spec hterm
  have hmin : ∀ i < Nat.find hterm, iterPar env i (some p) ≠ none :=
    fun i hi => Nat.find_min hterm hi
  refine ⟨Nat.find hterm, ?_, hm⟩
  apply iter_distinct_le env p
  · intro i hi
    cases hv : iterPar env i (some p) with
    | none => exact absurd hv (hmin i hi)
    | some v => exact ⟨v, rfl, chain_mem env hwf p hp i v hv⟩
  · intro i j hij hjm heq
    have hdrop : iterPar env (i + (Nat.find hterm - j)) (some p) = none := by
      rw [iterPar_add, heq, ← iterPar_add,
        show j + (Nat.find hterm - j) = Nat.find hterm from by omega]
      exact hm
    exact hmin _ (by omega) hdrop

lemma exists_hit_le (env : HEnv) (hwf : HWF env) (p a : Nat)
    (hp : p ∈ env.units) (hhit : ∃ k, iterPar env k (some p) = some a) :
    ∃ k ≤ env.units.length, iterPar env k (some p) = some a := by
  have hk := Nat.find_spec hhit
  have hmin : ∀ i < Nat.find hhit, iterPar env i (some p) ≠ some a :=
    fun i hi => Nat.find_min hhit hi
  refine ⟨Nat.find hhit, ?_, hk⟩
  apply iter_distinct_le env p
  · intro i hi
    cases hv : iterPar env i (some p) with
    | none =>
      have := iterPar_none_mono env (some p) i (Nat.find hhit) hv (by omega)
      rw [this] at hk
      exact absurd hk (by simp)
    | some v => exact ⟨v, rfl, chain_mem env hwf p hp i v hv⟩
  · intro i j hij hjm heq
    have hdrop : iterPar env (i + (Nat.find hhit - j)) (some p) = some a := by
      rw [iterPar_add, heq, ← iterPar_add,
        show j + (Nat.find hhit - j) = Nat.find hhit from by omega]
      exact hk
    exact hmin _ (by omega) hdrop

lemma walk_not_oof (env : HEnv) (a : Nat) (s : Option Nat) (f : Nat)
    (hnone : ∃ m < f, iterPar env m s = none) :
    ancestorWalk env a s f ≠ .outOfFuel := by
  induction f generalizing s with
  | zero => obtain ⟨m, hm, -⟩ := hnone; omega
  | succ f ih =>
    cases s with
    | none => simp [ancestorWalk]
    | some x =>
      unfold ancestorWalk
      by_cases hx : x = a
      · simp [hx]
      · rw [if_neg hx]
        apply ih
        obtain ⟨m, hmf, hm⟩ := hnone
        cases m with
        | zero => exact absurd hm (by simp [iterPar])
        | succ m' => exact ⟨m', by omega, hm⟩

lemma walk_cyc_of_hit (env : HEnv) (a : Nat) (s : Option Nat) (f : Nat)
    (hhit : ∃ k < f, iterPar env k s = some a) :
    ancestorWalk env a s f = .cycleDetected := by
  induction f generalizing s with
  | zero => obtain ⟨k, hk, -⟩ := hhit; omega
  | succ f ih =>
    obtain ⟨k, hkf, hk⟩ := hhit
    cases s with
    | none => rw [iterPar_none] at hk; exact absurd hk (by simp)
    | some x =>
      unfold ancestorWalk
      by_cases hx : x = a
      · rw [if_pos hx]
      · rw [if_neg hx]
        apply ih
        cases k with
        | zero =>
          have : x = a := by injection hk
          exact absurd this hx
        | succ k' => exact ⟨k', by omega, hk⟩

lemma walk_ok_spec (env : HEnv) (a : Nat) (s : Option Nat) (f : Nat)
    (h : ancestorWalk env a s f = .ok) :
    ∃ m < f, iterPar env m s = none ∧ ∀ i < m, iterPar env i s ≠ some a := by
  induction f generalizing s with
  | zero => exact absurd h (by simp [ancestorWalk])
  | succ f ih =>
    cases s with
    | none => exact ⟨0, by omega, rfl, fun i hi => by omega⟩
    | some x =>
      unfold ancestorWalk at h
      by_cases hx : x = a
      · rw [if_pos hx] at h; exact absurd h (by simp)
      · rw [if_neg hx] at h
        obtain ⟨m, hmf, hm, hnot⟩ := ih (env.parent x) h
        refine ⟨m + 1, by omega, hm, ?_⟩
        intro i hi
        cases i with
        | zero =>
          intro hcon
          exact hx (by injection hcon)
        | succ i' => exact hnot i' (by omega)


lemma hwf_applyReparent (env : HEnv) (a : Nat) (p : Option Nat)
    (hwf : HWF env) (ha : a ∈ env.units) (hp : ∀ q ∈ p, q ∈ env.units) :
    HWF (applyReparent env (a, p)) := by
  intro i j h
  show _ ∈ env.units ∧ _ ∈ env.units
  have h' : (if i = a then p else env.parent i) = some j := h
  by_cases hia : i = a
  · rw [if_pos hia] at h'
    exact ⟨hia ▸ ha, hp j (by rw [h']; exact rfl)⟩
  · rw [if_neg hia] at h'
    exact hwf i j h'

lemma acyclic_applyReparent (env : HEnv) (a : Nat) (p : Option Nat)
    (hwf : HWF env) (hac : Acyclic env)
    (hok : ∃ f, hierClean env a p f = .ok) :
    Acyclic (applyReparent env (a, p)) := by
  obtain ⟨f, hf⟩ := hok
  unfold hierClean at hf
  by_cases hps : p = some a
  · rw [if_pos hps] at hf
    exact absurd hf (by simp)
  · rw [if_neg hps] at hf
    obtain ⟨m, hmf, hm, hnot⟩ := walk_ok_spec env a p f hf
    have hcopy : ∀ n s, (∀ i ≤ n, iterPar env i s ≠ some a) →
        iterPar (applyReparent env (a, p)) n s = iterPar env n s := by
      intro n
      induction n with
      | zero => intro s _; rfl
      | succ n ih =>
        intro s hs
        rw [iterPar_succ_right, iterPar_succ_right,
          ih s (fun i hi => hs i (by omega))]
        cases hv : iterPar env n s with
        | none => rfl
        | some v =>
          have hva : v ≠ a := fun hcon => hs n (by omega) (by rw [hv, hcon])
          simp only [Option.some_bind]
          show (if v = a then p else env.parent v) = env.parent v
          rw [if_neg hva]
    have hpterm : iterPar (applyReparent env (a, p)) m p = none := by
      rw [hcopy m p ?_]
      · exact hm
      · intro i hi
        rcases Nat.lt_or_ge i m with hlt | hge
        · exact hnot i hlt
        · have him : i = m := by omega
          rw [him, hm]
          simp
    have hcopy2 : ∀ n s,
        (∀ i ≤ n, iterPar (applyReparent env (a, p)) i s ≠ some a) →
        iterPar (applyReparent env (a, p)) n s = iterPar env n s := by
      intro n
      induction n with
      | zero => intro s _; rfl
      | succ n ih =>
        intro s hs
        have heqn := ih s (fun i hi => hs i (by omega))
        rw [iterPar_succ_right, iterPar_succ_right, heqn]
        cases hv : iterPar env n s with
        | none => rfl
        | some v =>
          have hva : v ≠ a := by
            intro hcon
            exact hs n (by omega) (by rw [heqn, hv, hcon])
          simp only [Option.some_bind]
          show (if v = a then p else env.parent v) = env.parent v
          rw [if_neg hva]
    intro j hj
    by_cases hhita : ∃ t, iterPar (applyReparent env (a, p)) t (some j) = some a
    · obtain ⟨t, ht⟩ := hhita
      refine ⟨t + 1 + m, ?_⟩
      have h1 : iterPar (applyReparent env (a, p)) (t + 1) (some j) = p := by
        rw [iterPar_succ_right, ht]
        simp only [Option.some_bind]
        show (if a = a then p else env.parent a) = p
        rw [if_pos rfl]
      rw [iterPar_add, h1, hpterm]
    · push_neg at hhita
      obtain ⟨n, hn⟩ := hac j hj
      exact ⟨n, by rw [hcopy2 n (some j) (fun i _ => hhita i)]; exact hn⟩

lemma noSelfAncestor_of_acyclic (env : HEnv) (hwf : HWF env)
    (hac : Acyclic env) : NoSelfAncestor env := by
  intro i k hk hcon
  by_cases hi : i ∈ env.units
  · obtain ⟨n, hn⟩ := hac i hi
    have hper : ∀ t, iterPar env (t * k) (some i) = some i := by
      intro t
      induction t with
      | zero => rw [Nat.zero_mul]; rfl
      | succ t ih =>
        rw [Nat.succ_mul, iterPar_add, ih, hcon]
    have hlarge : iterPar env ((n + 1) * k) (some i) = none := by
      have hge : n ≤ (n + 1) * k := by
        have h1 : n + 1 ≤ (n + 1) * k := Nat.le_mul_of_pos_right _ hk
        omega
      exact iterPar_none_mono env (some i) n _ hn hge
    rw [hper (n + 1)] at hlarge
    exact absurd hlarge (by simp)
  · have hpar : env.parent i = none := by
      cases hp : env.parent i with
      | none => rfl
      | some j => exact absurd (hwf i j hp).1 hi
    cases k with
    | zero => omega
    | succ k' =>
      have h1 : iterPar env 1 (some i) = none := by
        show iterPar env 0 (Option.bind (some i) env.parent) = none
        rw [Option.some_bind, hpar]
        rfl
      have := iterPar_none_mono env (some i) 1 (k' + 1) h1 (by omega)
      rw [this] at hcon
      exact absurd hcon (by simp)

lemma validatedSeq_acyclic (ops : List ReparentOp) :
    ∀ (env : HEnv), HWF env → Acyclic env → ValidatedSeq env ops →
      Acyclic (applySeq env ops) ∧ HWF (applySeq env ops) := by
  induction ops with
  | nil =>
    intro env hwf hac _
    exact ⟨hac, hwf⟩
  | cons op ops ih =>
    intro env hwf hac hv
    cases hv with
    | cons _ _ _ hmem hp hok hrest =>
      exact ih (applyReparent env op)
        (hwf_applyReparent env op.1 op.2 hwf hmem hp)
        (acyclic_applyReparent env op.1 op.2 hwf hac hok) hrest


/-! ### C6: the ancestor walk has no bound -/

set_option maxRecDepth 8000 in
/-- C6 counterexample: on a corrupted store whose parent chain holds the
cycle `2 ↔ 3` (not through unit 1), validating unit 1 with proposed parent
2 does not terminate: the loop is still running after `total unit count`
iterations (the claimed bound) and after 1000. -/
theorem c6_walk_counterexample :
    hierClean ⟨[1, 2, 3], fun i => if i = 2 then some 3 else if i = 3 then some 2 else none⟩
      1 (some 2) 3 = .outOfFuel ∧
    hierClean ⟨[1, 2, 3], fun i => if i = 2 then some 3 else if i = 3 then some 2 else none⟩
      1 (some 2) 1000 = .outOfFuel := by
  constructor
  · decide
  · decide

/-- C6 (amended): the source loop carries no explicit bound, so it
terminates only because acyclic stored chains are finite: on an acyclic,
FK-sound store the walk finishes (reaching a root or raising
`CycleDetected`) within `total unit count + 1` iterations. -/
theorem c6_walk_amended (env : HEnv) (selfPk : Nat) (start : Option Nat)
    (hwf : HWF env) (hac : Acyclic env)
    (hstart : ∀ p ∈ start, p ∈ env.units) :
    hierClean env selfPk start (env.units.length + 1) ≠ .outOfFuel := by
  unfold hierClean
  by_cases hps : start = some selfPk
  · rw [if_pos hps]
    simp
  · rw [if_neg hps]
    cases start with
    | none => simp [ancestorWalk]
    | some p =>
      have hp := hstart p (by simp)
      obtain ⟨m, hmle, hm⟩ := exists_none_le env hwf p hp (hac p hp)
      exact walk_not_oof env selfPk (some p) _ ⟨m, by omega, hm⟩

/-- Witness for the amended C6 on a two-unit acyclic store. -/
theorem c6_walk_amended_witness :
    hierClean ⟨[1, 2], fun i => if i = 2 then some 1 else none⟩ 1 (some 2)
      ((⟨[1, 2], fun i => if i = 2 then some 1 else none⟩ : HEnv).units.length + 1)
      ≠ WalkResult.outOfFuel :=
  c6_walk_amended ⟨[1, 2], fun i => if i = 2 then some 1 else none⟩ 1 (some 2)
    (by
      intro i j h
      have h2 : (if i = 2 then some 1 else none : Option Nat) = some j := h
      by_cases hi : i = 2
      · rw [if_pos hi] at h2
        injection h2 with h'
        exact ⟨by rw [hi]; decide, by rw [← h']; decide⟩
      · rw [if_neg hi] at h2
        exact absurd h2 (by simp))
    (by
      intro i hi
      rcases List.mem_cons.1 hi with rfl | hi
      · exact ⟨1, by decide⟩
      · rcases List.mem_singleton.1 hi with rfl
        exact ⟨2, by decide⟩)
    (by
      intro q hq
      rw [Option.mem_def] at hq
      injection hq with h
      rw [← h]
      decide)

/-! ### C7: cycle rejection and acyclicity preservation -/

/-- C7: (a) validating an existing unit A against a proposed parent P that
is A itself or a strict descendant of A in an acyclic FK-sound store raises
`CycleDetected`; (b) under any sequence of reparenting operations that each
pass validation, no unit's ancestor chain ever contains the unit itself. -/
theorem c7_cycle_rejection :
    (∀ (env : HEnv) (A P : Nat), HWF env → Acyclic env →
      A ∈ env.units → P ∈ env.units →
      (P = A ∨ ∃ k, 0 < k ∧ iterPar env k (some P) = some A) →
      hierClean env A (some P) (env.units.length + 1) = .cycleDetected) ∧
    (∀ (env : HEnv) (ops : List ReparentOp), HWF env → Acyclic env →
      ValidatedSeq env ops → NoSelfAncestor (applySeq env ops)) := by
  constructor
  · intro env A P hwf hac hA hP hdesc
    unfold hierClean
    rcases hdesc with rfl | ⟨k, hk, hhit⟩
    · rw [if_pos rfl]
    · by_cases hps : (some P : Option Nat) = some A
      · rw [if_pos hps]
      · rw [if_neg hps]
        obtain ⟨k', hk'le, hk'⟩ := exists_hit_le env hwf P A hP ⟨k, hhit⟩
        exact walk_cyc_of_hit env A (some P) _ ⟨k', by omega, hk'⟩
  · intro env ops hwf hac hv
    obtain ⟨hac', hwf'⟩ := validatedSeq_acyclic ops env hwf hac hv
    exact noSelfAncestor_of_acyclic _ hwf' hac'

/-- Witness for C7: a parent-child pair rejected, and a validated
reparenting sequence that stays acyclic. -/
theorem c7_cycle_rejection_witness :
    hierClean ⟨[1, 2], fun i => if i = 2 then some 1 else none⟩ 1 (some 2)
      ((⟨[1, 2], fun i => if i = 2 then some 1 else none⟩ : HEnv).units.length + 1)
      = WalkResult.cycleDetected ∧
    NoSelfAncestor (applySeq ⟨[1, 2], fun _ => none⟩ [(2, some 1)]) :=
  ⟨c7_cycle_rejection.1 ⟨[1, 2], fun i => if i = 2 then some 1 else none⟩ 1 2
    (by
      intro i j h
      have h2 : (if i = 2 then some 1 else none : Option Nat) = some j := h
      by_cases hi : i = 2
      · rw [if_pos hi] at h2
        injection h2 with h'
        exact ⟨by rw [hi]; decide, by rw [← h']; decide⟩
      · rw [if_neg hi] at h2
        exact absurd h2 (by simp))
    (by
      intro i hi
      rcases List.mem_cons.1 hi with rfl | hi
      · exact ⟨1, by decide⟩
      · rcases List.mem_singleton.1 hi with rfl
        exact ⟨2, by decide⟩)
    (by decide) (by decide)
    (Or.inr ⟨1, by omega, by decide⟩),
   c7_cycle_rejection.2 ⟨[1, 2], fun _ => none⟩ [(2, some 1)]
    (by
      intro i j h
      have h2 : (none : Option Nat) = some j := h
      exact absurd h2 (by simp))
    (by intro i _; exact ⟨1, rfl⟩)
    (ValidatedSeq.cons _ _ _ (by decide)
      (by
        intro q hq
        rw [Option.mem_def] at hq
        injection hq with h
        rw [← h]
        decide)
      ⟨2, by decide⟩
      (ValidatedSeq.nil _))⟩


/-! ### C9: the save path never validates -/

/-- The stored organisation state the Coordinator reads and writes. -/
structure OrgEnv where
  units : List Struttura
  ledger : List StrutturaResponsabile

/-- The stored forest seen by the hierarchy validator. -/
def henvOf (env : OrgEnv) : HEnv :=
  ⟨env.units.map (fun t => t.pk),
   fun i => (env.units.find? (fun t => decide (t.pk = i))).bind
     (fun t => t.struttura_padre)⟩

/-- The child branch of the code step:
`self.codice = self._generate_code_for_parent(self.struttura_padre)`, with
the parent record fetched by FK (`none` models the raised
`DoesNotExist`). -/
def codiceForParent (env : OrgEnv) (s : Struttura) (q : Nat) : Option Struttura :=
  (env.units.find? (fun t => decide (t.pk = q))).map (fun prec =>
    { s with codice := some (generateCodeForParent (prec.codice.getD "")
        ((env.units.filter (fun t =>
          decide (t.struttura_padre = some q) && !decide (t.pk = s.pk))).map
          (fun t => t.codice.getD ""))) })

/-- The code step of `Struttura.save`: recompute `codice` only when it is
"falsy" (null or empty) or the parent changed, via the sibling-based
generators. -/
def computeCodice (env : OrgEnv) (s : Struttura) (old_parent_id : Option Nat) :
    Option Struttura :=
  if decide (s.codice.getD "" = "") || decide (old_parent_id ≠ s.struttura_padre) then
    match s.struttura_padre with
    | some q => codiceForParent env s q
    | none =>
      some { s with codice := some (generateCodeForRoot
          ((env.units.filter (fun t =>
            decide (t.struttura_padre = none) && !decide (t.pk = s.pk))).map
            (fun t => t.codice.getD ""))) }
  else some s

/-- `super().save()`: an `UPDATE` when the pk is already stored, an
`INSERT` otherwise. -/
def persistUnits (env : OrgEnv) (s1 : Struttura) : List Struttura :=
  if env.units.any (fun t => decide (t.pk = s1.pk)) then
    env.units.map (fun t => if t.pk = s1.pk then s1 else t)
  else env.units ++ [s1]

/-- `Struttura.save(...)`: compare against the persisted prior state,
recompute the code, persist the unit, then reconcile the ledger when the
unit is new or its `responsabile` FK changed.  No step invokes
`Struttura.clean`. -/
def strutturaSave (env : OrgEnv) (s : Struttura) (wasAdding : Bool)
    (today : Date) : Option (OrgEnv × Option LedgerError) :=
  match computeCodice env s
      (((env.units.find? (fun t => decide (t.pk = s.pk))).bind
        (fun t => t.struttura_padre))) with
  | none => none
  | some s1 =>
    if wasAdding || decide (((env.units.find? (fun t => decide (t.pk = s.pk))).bind
        (fun t => t.responsabile)) ≠ s.responsabile) then
      some (⟨persistUnits env s1, (sync_assignment_from_fk s1 env.ledger today).1⟩,
        (sync_assignment_from_fk s1 env.ledger today).2)
    else
      some (⟨persistUnits env s1, env.ledger⟩, none)

/-- The `update_struttura_padre` endpoint: fetch the unit, overwrite its
`struttura_padre_id` with the request value and call `save()` directly —
no `full_clean`, hence no hierarchy validation. -/
def update_struttura_padre (env : OrgEnv) (sid : Nat) (pid : Option Nat)
    (today : Date) : Option (OrgEnv × Option LedgerError) :=
  match env.units.find? (fun t => decide (t.pk = sid)) with
  | none => none
  | some s => strutturaSave env { s with struttura_padre := pid } false today

lemma computeCodice_spec (env : OrgEnv) (s : Struttura) (opid : Option Nat)
    (hparent : ∀ q ∈ s.struttura_padre,
      (env.units.find? (fun t => decide (t.pk = q))).isSome) :
    ∃ s1 : Struttura, computeCodice env s opid = some s1 ∧ s1.pk = s.pk ∧
      s1.struttura_padre = s.struttura_padre ∧
      s1.responsabile = s.responsabile := by
  unfold computeCodice
  by_cases hcond : (decide (s.codice.getD "" = "") ||
      decide (opid ≠ s.struttura_padre)) = true
  · rw [if_pos hcond]
    cases hq : s.struttura_padre with
    | none => exact ⟨_, rfl, rfl, rfl, rfl⟩
    | some q =>
      have hfq := hparent q (by rw [hq]; exact rfl)
      cases hfqv : env.units.find? (fun t => decide (t.pk = q)) with
      | none => rw [hfqv] at hfq; simp at hfq
      | some prec =>
        show ∃ s1, codiceForParent env s q = some s1 ∧ s1.pk = s.pk ∧
          s1.struttura_padre = some q ∧ s1.responsabile = s.responsabile
        unfold codiceForParent
        rw [hfqv]
        exact ⟨_, rfl, rfl, hq, rfl⟩
  · rw [if_neg hcond]
    exact ⟨s, rfl, rfl, rfl, rfl⟩

lemma find?_updateUnits (l : List Struttura) (s1 : Struttura) (sid : Nat)
    (hpk : s1.pk = sid)
    (hf : (l.find? (fun t => decide (t.pk = sid))).isSome) :
    (l.map (fun t => if t.pk = s1.pk then s1 else t)).find?
      (fun t => decide (t.pk = sid)) = some s1 := by
  induction l with
  | nil => simp at hf
  | cons a t ih =>
    by_cases ha : a.pk = sid
    · rw [List.map_cons, if_pos (by rw [ha, hpk])]
      rw [List.find?_cons_of_pos _ (by simp [hpk])]
    · rw [List.map_cons, if_neg (by rw [hpk]; exact ha)]
      rw [List.find?_cons_of_neg _ (by simp [ha])]
      apply ih
      rw [List.find?_cons_of_neg _ (by simp [ha])] at hf
      exact hf

lemma strutturaSave_no_resp_change (env : OrgEnv) (s sOld s1 : Struttura)
    (today : Date)
    (hold : env.units.find? (fun t => decide (t.pk = s.pk)) = some sOld)
    (hresp : sOld.responsabile = s.responsabile)
    (hs1 : computeCodice env s sOld.struttura_padre = some s1) :
    strutturaSave env s false today
      = some (⟨persistUnits env s1, env.ledger⟩, none) := by
  unfold strutturaSave
  rw [hold]
  simp only [Option.some_bind]
  rw [hs1]
  simp [hresp]

/-- C9: the persistence path never invokes the hierarchy validator — even
when the validator would reject the proposed parent with `CycleDetected`,
the reparenting endpoint persists it: `save` succeeds with no error, the
stored unit carries the new parent, and the ledger is untouched. -/
theorem c9_save_bypasses_validation (env : OrgEnv) (sid : Nat)
    (pid : Option Nat) (s : Struttura) (f : Nat) (today : Date)
    (hfind : env.units.find? (fun t => decide (t.pk = sid)) = some s)
    (hparent : ∀ q ∈ pid, (env.units.find? (fun t => decide (t.pk = q))).isSome)
    (hreject : hierClean (henvOf env) sid pid f = .cycleDetected) :
    ∃ env', update_struttura_padre env sid pid today = some (env', none) ∧
      (env'.units.find? (fun t => decide (t.pk = sid))).map
        (fun t => t.struttura_padre) = some pid ∧
      env'.ledger = env.ledger := by
  have hspk : s.pk = sid := by
    have := List.find?_some hfind
    simpa using this
  have hgoal : update_struttura_padre env sid pid today
      = strutturaSave env { s with struttura_padre := pid } false today := by
    unfold update_struttura_padre
    rw [hfind]
  obtain ⟨s1, hs1, hs1pk, hs1par, hs1resp⟩ :=
    computeCodice_spec env { s with struttura_padre := pid } s.struttura_padre
      (fun q hq => hparent q hq)
  have hfindpk : env.units.find? (fun t =>
      decide (t.pk = ({ s with struttura_padre := pid } : Struttura).pk)) = some s := by
    show env.units.find? (fun t => decide (t.pk = s.pk)) = some s
    rw [hspk]
    exact hfind
  have hsave := strutturaSave_no_resp_change env { s with struttura_padre := pid }
    s s1 today hfindpk rfl hs1
  refine ⟨⟨persistUnits env s1, env.ledger⟩, by rw [hgoal, hsave], ?_, rfl⟩
  show ((persistUnits env s1).find? (fun t => decide (t.pk = sid))).map
    (fun t => t.struttura_padre) = some pid
  have hany : env.units.any (fun t => decide (t.pk = s1.pk)) = true := by
    rw [List.any_eq_true]
    refine ⟨s, List.mem_of_find?_eq_some hfind, ?_⟩
    rw [hs1pk]
    show decide (s.pk = s.pk) = true
    simp
  unfold persistUnits
  rw [if_pos hany]
  rw [find?_updateUnits env.units s1 sid (by rw [hs1pk]; exact hspk)
    (by rw [hfind]; exact rfl)]
  simp [hs1par]


set_option maxRecDepth 8000 in
/-- Witness for C9: reparenting unit 1 onto itself — rejected by the
validator — is persisted by the endpoint with no error. -/
theorem c9_save_bypasses_validation_witness :
    ∃ env', update_struttura_padre
        ⟨[⟨1, none, some "1", none, some (civ 2020 1 1), none⟩], []⟩ 1 (some 1) 0
        = some (env', none) ∧
      (env'.units.find? (fun t => decide (t.pk = 1))).map
        (fun t => t.struttura_padre) = some (some 1) ∧
      env'.ledger =
        (⟨[⟨1, none, some "1", none, some (civ 2020 1 1), none⟩], []⟩ : OrgEnv).ledger :=
  c9_save_bypasses_validation
    ⟨[⟨1, none, some "1", none, some (civ 2020 1 1), none⟩], []⟩
    1 (some 1) ⟨1, none, some "1", none, some (civ 2020 1 1), none⟩ 1 0
    (by decide)
    (by
      intro q hq
      rw [Option.mem_def] at hq
      injection hq with h
      rw [← h]
      decide)
    (by decide)

end Organigramma
